import Mathlib

/-!
Verification development for the policy deep-learning agent
(`server/scripts/policy_dl_agent`): data windowing and normalization
(`data_processor.py`), the supervised training loop (`trainer.py`), the
reward-function loader and the two policy optimizers (`optimizer.py`).

Modelling conventions:
* Python floats are modelled as `FVal`: either a finite rational or one of
  the two IEEE infinities that the code manufactures (`float('-inf')` in
  `RewardFunctionLoader.compute`, and its negation in the objective).
  NaN never arises on the modelled paths.
* The torch forward pass of `PanelTransformer` is an opaque function
  parameter (`forward`): the claims quantify over arbitrary trained
  predictors, and the network is pure numeric code with no control flow
  relevant to any claim.
* `numpy` randomness is supplied by explicit oracle streams / parameters.
* `np.std` involves an irrational square root, so fitted standard
  deviations enter as parameters; means are computed exactly.
-/

/-- A Python float value as produced on the modelled paths: a finite value,
or one of the two infinities (`float('-inf')` from a failed reward call and
its negation). NaN is unreachable on the modelled paths. -/
inductive FVal where
  | fin (q : ℚ)
  | negInf
  | posInf
deriving DecidableEq

namespace FVal

/-- IEEE `≤` restricted to non-NaN values. -/
def ble : FVal → FVal → Bool
  | negInf, _ => true
  | _, posInf => true
  | fin a, fin b => a ≤ b
  | _, _ => false

/-- IEEE `<` restricted to non-NaN values. -/
def blt : FVal → FVal → Bool
  | _, negInf => false
  | negInf, _ => true
  | fin a, fin b => a < b
  | fin _, posInf => true
  | posInf, _ => false

/-- Negation of a float (`-reward` in `_objective_function`). -/
def neg : FVal → FVal
  | fin a => fin (-a)
  | negInf => posInf
  | posInf => negInf

/-- Subtracting a finite rational from a float (`reward -= 1000.0 * (pv - val)`
in `_objective_function`; an infinite reward absorbs the subtraction, as in
IEEE arithmetic). -/
def subQ : FVal → ℚ → FVal
  | fin a, q => fin (a - q)
  | negInf, _ => negInf
  | posInf, _ => posInf

instance : LE FVal := ⟨fun a b => a.ble b = true⟩

instance : LT FVal := ⟨fun a b => a.blt b = true⟩

theorem le_def (a b : FVal) : a ≤ b ↔ a.ble b = true := Iff.rfl

theorem lt_def (a b : FVal) : a < b ↔ a.blt b = true := Iff.rfl

instance : DecidableRel (α := FVal) (· ≤ ·) := fun a b => decEq (a.ble b) true

instance : DecidableRel (α := FVal) (· < ·) := fun a b => decEq (a.blt b) true

instance : LinearOrder FVal where
  le_refl a := by cases a <;> simp [le_def, ble]
  le_trans a b c := by
    cases a <;> cases b <;> cases c <;> simp [le_def, ble] <;> exact fun h h' => le_trans h h'
  le_antisymm a b := by
    cases a <;> cases b <;> simp [le_def, ble] <;> exact fun h h' => le_antisymm h h'
  le_total a b := by
    cases a <;> cases b <;> simp [le_def, ble] <;> exact le_total _ _
  lt_iff_le_not_le a b := by
    cases a <;> cases b <;> simp [le_def, lt_def, ble, blt] <;>
      exact fun h => le_of_lt h
  decidableLE := inferInstance

theorem neg_le_neg {a b : FVal} (h : a ≤ b) : b.neg ≤ a.neg := by
  cases a <;> cases b <;> simp_all [le_def, ble, neg]

theorem neg_neg (a : FVal) : a.neg.neg = a := by
  cases a <;> simp [neg]

theorem subQ_eq_negInf_iff (a : FVal) (q : ℚ) : a.subQ q = negInf ↔ a = negInf := by
  cases a <;> simp [subQ]

theorem subQ_lt_fin {a q : ℚ} (h : 0 < q) : (fin a).subQ q < fin a := by
  simp [subQ, lt_def, blt]; linarith

end FVal

/-- Predictions / reward-context dictionaries (`Dict[str, float]` of finite
model outputs / context values). -/
def PredDict : Type := List (String × ℚ)

instance : DecidableEq PredDict := by unfold PredDict; infer_instance

/-- Model of a loaded `compute_reward(predictions, actual, context)` call
followed by the coercion `float(reward)`: either both succeed with a finite
value, or some exception is raised along the way. -/
def RewardFn : Type := PredDict → PredDict → PredDict → Except String ℚ

/-- `RewardFunctionLoader.compute` (optimizer.py lines 70-81): invoke the
loaded function on `(predictions, actual or empty, context or empty)` and
coerce the result to a float; on success return that float, on any exception
return `float('-inf')` (a warning is emitted, a side effect not modelled). -/
def RewardFunctionLoader.compute (rf : RewardFn) (predictions : PredDict)
    (actual : Option PredDict) (context : Option PredDict) : FVal :=
  match rf predictions (actual.getD []) (context.getD []) with
  | .ok q => .fin q
  | .error _ => .negInf

/-- Mean of a list of rationals (`np.mean`); the empty case (which numpy
maps to NaN with a warning) is unreachable on the modelled paths. -/
def qMean (l : List ℚ) : ℚ := l.sum / l.length

/-- Column-wise mean of a row-major table (`np.mean(features, axis=0)`).
Rows all share the width of the first row on every modelled path. -/
def colMeans (rows : List (List ℚ)) : List ℚ :=
  (List.range (rows.getD 0 []).length).map (fun j => qMean (rows.map (fun r => r.getD j 0)))

/-- Componentwise z-score normalization of one row against stored means and
stds (`(features - self.feature_means) / self.feature_stds`,
data_processor.py lines 162/167). The stored stds already include the
`+ 1e-8` floor. -/
def normalizeVec : List ℚ → List ℚ → List ℚ → List ℚ
  | m :: ms, s :: ss, x :: xs => (x - m) / s :: normalizeVec ms ss xs
  | _, _, _ => []

/-- Componentwise denormalization (`predictions * self.target_stds +
self.target_means`, `PanelDataProcessor.denormalize_predictions` /
`denormalize_features`, data_processor.py lines 217-223). -/
def denormalizeVec : List ℚ → List ℚ → List ℚ → List ℚ
  | m :: ms, s :: ss, y :: ys => (y * s + m) :: denormalizeVec ms ss ys
  | _, _, _ => []

/-- The fitted standard deviation actually stored: the raw `np.std` value
(a nonnegative real, supplied as a parameter) plus the `1e-8` floor
(data_processor.py lines 161/166). -/
def fittedStd (rawStd : ℚ) : ℚ := rawStd + 1 / 100000000

/-- Python `range(a, b)` over machine integers. -/
def pyRange (a b : ℤ) : List ℤ := (List.range (b - a).toNat).map (fun k : ℕ => a + (k : ℤ))

/-- Python slice `l[lo:hi]` for `0 ≤ lo ≤ hi` (the only shape used by the
windowing loop). -/
def islice (l : List α) (lo hi : ℤ) : List α := (l.drop lo.toNat).take (hi - lo).toNat

/-- The per-entity sliding-window loop (data_processor.py lines 180-183):
`for i in range(lookback, n_samples - pred_horizon + 1)`, emitting the
feature window `entity_features[i-lookback:i]` and the target window
`entity_targets[i:i+pred_horizon]`. -/
def slidingWindows (lookback horizon : ℕ) (feats targs : List (List ℚ)) :
    List (List (List ℚ) × List (List ℚ)) :=
  (pyRange lookback ((feats.length : ℤ) - horizon + 1)).map (fun i =>
    (islice feats (i - lookback) i, islice targs i (i + horizon)))

/-- Windows of all entities concatenated, each tagged with its dense entity
id (position of the entity in sorted order, mirroring the
`self.entity_encoder` assignment of data_processor.py lines 147-149 and the
per-entity loop of lines 172-183). Input is the sorted table already grouped
by entity: each element is that entity's (feature rows, target rows). -/
def panelWindows (lookback horizon : ℕ)
    (entities : List (List (List ℚ) × List (List ℚ))) :
    List (List (List ℚ) × List (List ℚ) × ℕ) :=
  entities.enum.flatMap (fun p =>
    (slidingWindows lookback horizon p.2.1 p.2.2).map (fun w => (w.1, w.2, p.1)))

/-- `PanelDataProcessor._prepare_panel_data` up to the split
(data_processor.py lines 141-187): normalize every row with the pooled
means/stds fitted over the full table, then window each entity. The raw
standard deviations are parameters (irrational square roots); the `1e-8`
floor is applied here as in the source. The function is total: an entity too
short for the window yields no windows and no error. -/
def preparePanelData (lookback horizon : ℕ)
    (entities : List (List (List ℚ) × List (List ℚ)))
    (featureRawStds targetRawStds : List ℚ) :
    List (List (List ℚ) × List (List ℚ) × ℕ) :=
  let featureMeans := colMeans (entities.flatMap (fun e => e.1))
  let targetMeans := colMeans (entities.flatMap (fun e => e.2))
  let featureStds := featureRawStds.map fittedStd
  let targetStds := targetRawStds.map fittedStd
  panelWindows lookback horizon (entities.map (fun e =>
    (e.1.map (normalizeVec featureMeans featureStds),
     e.2.map (normalizeVec targetMeans targetStds))))

/-- `int(n * 0.7)` on the window count (data_processor.py line 191), modelled
in exact arithmetic; the float product rounds identically for every count
arising in the claims. -/
def pyInt07 (n : ℕ) : ℕ := 7 * n / 10

/-- `int(n * 0.85)` (data_processor.py line 192). -/
def pyInt085 (n : ℕ) : ℕ := 85 * n / 100

/-- The 70/15/15 split (data_processor.py lines 190-206): one random
permutation of all windows (supplied as the oracle `perm`, a list of
positions standing for `np.random.permutation(n)`), sliced into
train/val/test. -/
def splitData (perm : List ℕ) (ws : List α) : List α × List α × List α :=
  let shuffled := perm.filterMap (fun i => ws.get? i)
  let t := pyInt07 ws.length
  let v := pyInt085 ws.length
  (shuffled.take t, (shuffled.drop t).take (v - t), shuffled.drop v)

/-- Number of batches built by `create_batches` (data_processor.py lines
251-262): the length of `range(0, n, batch_size)`. -/
def numBatches (n batchSize : ℕ) : ℕ := (n + batchSize - 1) / batchSize

/-- One call of `PolicyTrainer.train_epoch` (trainer.py lines 67-105) at the
zero-batch boundary: the epoch accumulates `total_loss` over the batches and
returns `total_loss / n_batches`, so an empty training split raises
`ZeroDivisionError`; otherwise the epoch completes (the loss values
themselves are training dynamics outside the claims and are not modelled). -/
def trainEpochOutcome (nTrain batchSize : ℕ) : Except String Unit :=
  if numBatches nTrain batchSize = 0 then
    .error "ZeroDivisionError: division by zero"
  else
    .ok ()

/-- Outcome of the `train` request pipeline, split at the moment
`PanelTransformer(...)` is constructed (main.py line 144): either an error
is reported before any model exists, or a model is built and training then
runs to its own outcome. -/
inductive TrainOutcome where
  | errorBeforeModel (msg : String)
  | modelBuiltThen (rest : Except String Unit)

/-- The `train` request path relevant to windowing errors
(`handle_train` → `prepare_data` → `_train_single_model`, main.py lines
122-199): data preparation runs first and never raises on short entities;
`PanelTransformer` is then constructed unconditionally and
`trainer.train` runs its first epoch (the pipeline with `epochs ≥ 1`;
later epochs and the test evaluation are beyond the first failure point). -/
def handleTrainCore (lookback horizon : ℕ)
    (entities : List (List (List ℚ) × List (List ℚ)))
    (featureRawStds targetRawStds : List ℚ)
    (perm : List ℕ) (batchSize : ℕ) : TrainOutcome :=
  let ws := preparePanelData lookback horizon entities featureRawStds targetRawStds
  let split := splitData perm ws
  .modelBuiltThen (trainEpochOutcome split.1.length batchSize)

/-- The forward pass of a trained `PanelTransformer` (or the elementwise
ensemble average of several, optimizer.py lines 129-139): a pure map from a
`[batch, lookback, n_features]` tensor and per-sample entity ids to a
`[batch, horizon, n_targets]` tensor, kept opaque (the claims hold for every
predictor). -/
def Forward : Type :=
  List (List (List ℚ)) → List ℤ → List (List (List ℚ))

/-- Overwrite the lever features of one (last-time-step) feature row
(`modified_features[:, -1, idx] = policy_params[i]` guarded by
`i < len(policy_params)`, optimizer.py lines 124-126). Out-of-range lever
indices leave the row unchanged (`List.set` semantics; index validity holds
on every modelled path). -/
def overwriteLevers (indices : List ℕ) (params : List ℚ) (row : List ℚ) : List ℚ :=
  indices.enum.foldl
    (fun r p => if p.1 < params.length then r.set p.2 (params.getD p.1 0) else r) row

/-- Apply an update to the last lookback row of one sample (`[:, -1, :]`). -/
def setLastRow (f : List ℚ → List ℚ) (sample : List (List ℚ)) : List (List ℚ) :=
  sample.set (sample.length - 1) (f (sample.getD (sample.length - 1) []))

/-- Candidate lever values written into the base features
(optimizer.py lines 123-126). -/
def modifyFeatures (baseFeatures : List (List (List ℚ))) (indices : List ℕ)
    (params : List ℚ) : List (List (List ℚ)) :=
  baseFeatures.map (setLastRow (overwriteLevers indices params))

/-- Reduce a `[batch, horizon, n_targets]` prediction tensor to the scalar
mean of target component `i` over batch and horizon
(`predictions[:, :, i].mean()`, optimizer.py line 143). -/
def targetColMean (preds : List (List (List ℚ))) (i : ℕ) : ℚ :=
  qMean ((preds.flatMap id).map (fun r => r.getD i 0))

/-- Format predictions as the per-target dictionary handed to the reward
function (`for i, name in enumerate(target_names): if i < predictions.shape[-1]`,
optimizer.py lines 140-144). -/
def predsToDict (targetNames : List String) (preds : List (List (List ℚ))) : PredDict :=
  let width := ((preds.getD 0 []).getD 0 []).length
  targetNames.enum.filterMap (fun p =>
    if p.1 < width then some (p.2, targetColMean preds p.1) else none)

/-- `PolicyOptimizer._predict_with_params` (optimizer.py lines 111-144):
write the candidate levers into the last time step, run the predictor
(ensemble-averaged inside `forward`), and average each target over batch and
horizon. -/
def predictWithParams (forward : Forward) (baseFeatures : List (List (List ℚ)))
    (entityIds : List ℤ) (indices : List ℕ) (targetNames : List String)
    (params : List ℚ) : PredDict :=
  predsToDict targetNames (forward (modifyFeatures baseFeatures indices params) entityIds)

/-- One optimization constraint as parsed from the request:
`c.get('variable')`, `c.get('type', 'max')`, `c.get('value')`
(optimizer.py lines 168-171). -/
structure Constraint where
  var : Option String
  typ : Option String
  value : Option ℚ
deriving DecidableEq

/-- One iteration of the constraint-penalty loop of `_objective_function`
(optimizer.py lines 168-178): skip a constraint whose variable is absent
from the predictions or whose value is missing; for a violated `max`
constraint subtract `1000 * (pv - val)` from the reward, symmetrically for
`min`. -/
def constraintStep (predictions : PredDict) (r : FVal) (c : Constraint) : FVal :=
  match c.var, c.value with
  | some v, some val =>
    match predictions.lookup v with
    | none => r
    | some pv =>
      if c.typ.getD "max" = "max" ∧ val < pv then r.subQ (1000 * (pv - val))
      else if c.typ.getD "max" = "min" ∧ pv < val then r.subQ (1000 * (val - pv))
      else r
  | _, _ => r

/-- The constraint-penalty loop of `_objective_function` (optimizer.py lines
166-178). -/
def applyConstraints (predictions : PredDict) (cs : List Constraint) (reward : FVal) : FVal :=
  cs.foldl (constraintStep predictions) reward

/-- One recorded evaluation (`self.optimization_history.append(...)`,
optimizer.py lines 179-183). -/
structure HistEntry where
  params : List ℚ
  predictions : PredDict
  reward : FVal
deriving DecidableEq

/-- `PolicyOptimizer._objective_function` (optimizer.py lines 146-184):
predict under the candidate levers, compute the reward (−∞ on a reward
exception), apply the soft constraint penalties, record the history entry,
and return the negated reward for the minimizer. The redundant re-coercion
`float(reward)` of lines 162-165 is the identity here. -/
def objectiveFunction (forward : Forward) (rf : RewardFn)
    (baseFeatures : List (List (List ℚ))) (entityIds : List ℤ)
    (indices : List ℕ) (targetNames : List String) (context : PredDict)
    (constraints : List Constraint) (params : List ℚ) : FVal × HistEntry :=
  let predictions := predictWithParams forward baseFeatures entityIds indices targetNames params
  let reward := RewardFunctionLoader.compute rf predictions none (some context)
  let reward := applyConstraints predictions constraints reward
  (reward.neg, ⟨params, predictions, reward⟩)

/-- First minimizer of `f` over a list, with its value (ties resolved to the
earlier element). -/
def argminF (f : α → FVal) : List α → Option (α × FVal)
  | [] => none
  | x :: xs =>
    match argminF f xs with
    | none => some (x, f x)
    | some (y, fy) => if f x ≤ fy then some (x, f x) else some (y, fy)

/-- Resolution of lever names to feature indices (optimizer.py lines
221-224): keep, in order, the first index in `feature_names` of each policy
feature name that occurs there. -/
def resolveIndices (policyFeatureNames featureNames : List String) : List ℕ :=
  policyFeatureNames.filterMap (fun n => featureNames.findIdx? (· = n))

/-- Bounds repair (optimizer.py lines 233-234): a bounds list whose length
differs from the number of resolved levers is replaced wholesale by
`[(0, 1)] * n_params`, without any error or notice. -/
def resolveBounds (bounds : List (ℚ × ℚ)) (nParams : ℕ) : List (ℚ × ℚ) :=
  if bounds.length ≠ nParams then List.replicate nParams (0, 1) else bounds

/-- Default initial lever point (optimizer.py lines 237-238): the midpoint
of each lever's bounds. -/
def defaultInitial (bounds : List (ℚ × ℚ)) : List ℚ :=
  bounds.map (fun b => (b.1 + b.2) / 2)

/-- Status-quo baseline levers
(`base_features[:, -1, policy_feature_indices].mean(axis=0)`,
optimizer.py line 280). -/
def baselineLeverMeans (baseFeatures : List (List (List ℚ))) (indices : List ℕ) : List ℚ :=
  indices.map (fun idx =>
    qMean (baseFeatures.map (fun s => (s.getD (s.length - 1) []).getD idx 0)))

/-- Python `l[-n:]` (the history cap of optimizer.py line 294). -/
def takeLast (n : ℕ) (l : List α) : List α := l.drop (l.length - n)

/-- The result dictionary of `PolicyOptimizer.optimize` (optimizer.py lines
284-295). The solver's `success` flag is an opaque scipy status and is not
modelled. -/
structure OptResult where
  optimalParams : List (String × ℚ)
  optimalReward : FVal
  baselinePredictions : PredDict
  optimalPredictions : PredDict
  improvement : List (String × ℚ)
  iterations : ℕ
  history : List HistEntry
deriving DecidableEq

/-- `PolicyOptimizer.optimize` (optimizer.py lines 186-295). The scipy
searches are black-box minimizers over the objective and are modelled by
their evaluation traces: `differential_evolution` evaluates the points its
seeded population visits (`deTrace` — note the source never passes
`initial_params` to it) and returns the best point found;
`scipy.optimize.minimize` starts from `initial_params`, evaluates it and the
solver's further iterates (`minTrace`), and returns the best point found.
Every evaluation appends a history entry; the returned history is capped to
the last 100 entries. -/
def PolicyOptimizer.optimize (forward : Forward) (rf : RewardFn)
    (baseFeatures : List (List (List ℚ))) (entityIds : List ℤ)
    (policyFeatureNames featureNames targetNames : List String)
    (boundsArg : List (ℚ × ℚ)) (initialParams : Option (List ℚ))
    (method : String) (context : Option PredDict)
    (constraints : Option (List Constraint))
    (deTrace minTrace : List (List ℚ)) : Except String OptResult :=
  let indices := resolveIndices policyFeatureNames featureNames
  if indices.isEmpty then .error "No valid policy features found"
  else
    let ctx := context.getD []
    let nParams := indices.length
    let bounds := resolveBounds boundsArg nParams
    let initial := initialParams.getD (defaultInitial bounds)
    let cs := constraints.getD []
    let obj := objectiveFunction forward rf baseFeatures entityIds indices targetNames ctx cs
    let evalPts := if method = "differential_evolution" then deTrace else initial :: minTrace
    let evaluated := evalPts.map (fun p => (p, obj p))
    match argminF (fun e => e.2.1) evaluated with
    | none => .error "optimization produced no evaluations"
    | some (e, fmin) =>
      let optimalParams := e.1
      let finalPredictions :=
        predictWithParams forward baseFeatures entityIds indices targetNames optimalParams
      let baselinePredictions :=
        predictWithParams forward baseFeatures entityIds indices targetNames
          (baselineLeverMeans baseFeatures indices)
      .ok
        { optimalParams := policyFeatureNames.enum.map (fun p => (p.2, optimalParams.getD p.1 0))
          optimalReward := fmin.neg
          baselinePredictions := baselinePredictions
          optimalPredictions := finalPredictions
          improvement := finalPredictions.map (fun kv =>
            (kv.1, kv.2 - ((baselinePredictions.lookup kv.1).getD 0)))
          iterations := evaluated.length
          history := takeLast 100 (evaluated.map (fun e' => e'.2.2)) }

/-- Mutable state of `PolicyTrainer` across the epoch loop (trainer.py lines
55-65 and 206-260). `bestValLoss = none` models the initial
`float('inf')`, `bestModelState = none` the initial `None`. The `processed`
field is an observation-only log of the (validation loss, end-of-epoch
weights) pairs the loop has consumed; it does not influence the computation. -/
structure TrainerState (W : Type) where
  bestValLoss : Option ℚ
  bestModelState : Option W
  patienceCounter : ℕ
  valHistory : List ℚ
  processed : List (ℚ × W)
  current : W

/-- One epoch's bookkeeping (trainer.py lines 237-243): strict improvement
of the validation loss snapshots the weights and resets the patience
counter, anything else increments it. `e = (val_loss, weights at end of
epoch)`; the losses themselves are training dynamics supplied by the epoch
list. -/
def epochStep {W : Type} (s : TrainerState W) (e : ℚ × W) : TrainerState W :=
  let improved := match s.bestValLoss with
    | none => true
    | some b => decide (e.1 < b)
  if improved then
    { bestValLoss := some e.1
      bestModelState := some e.2
      patienceCounter := 0
      valHistory := s.valHistory ++ [e.1]
      processed := s.processed ++ [e]
      current := e.2 }
  else
    { s with
      patienceCounter := s.patienceCounter + 1
      valHistory := s.valHistory ++ [e.1]
      processed := s.processed ++ [e]
      current := e.2 }

/-- The epoch loop of `PolicyTrainer.train` (trainer.py lines 208-260):
consume epochs until the budget is exhausted or the patience counter reaches
`early_stopping_patience` (checked after each epoch, line 258). -/
def trainLoop {W : Type} (patienceLimit : ℕ) :
    List (ℚ × W) → TrainerState W → TrainerState W
  | [], s => s
  | e :: rest, s =>
    let s' := epochStep s e
    if patienceLimit ≤ s'.patienceCounter then s' else trainLoop patienceLimit rest s'

/-- Best-snapshot restoration after the loop (trainer.py lines 262-264):
reload the snapshot when one was taken, otherwise keep the current
weights. -/
def restoredWeights {W : Type} (s : TrainerState W) : W :=
  s.bestModelState.getD s.current

/-- `PolicyTrainer.train` (trainer.py lines 185-276) abstracted over the
training dynamics: `epochs` lists, for each epoch of the budget in order,
the validation loss produced by that epoch and the model weights at its end;
`init` is the weights before training. Returns the final trainer state (the
held-out test evaluation that follows does not touch the weights). -/
def PolicyTrainer.train {W : Type} (patienceLimit : ℕ) (epochs : List (ℚ × W))
    (init : W) : TrainerState W :=
  trainLoop patienceLimit epochs ⟨none, none, 0, [], [], init⟩

/-- Oracle streams standing for the shared numpy RNG of
`EvolutionaryOptimizer.optimize`: `r` supplies the successive
`np.random.random()` draws (values in `[0,1)`), `ints` the integer draws
behind `np.random.choice` / `np.random.randint`, and `vals` the `[0,1)`
fractions behind `np.random.uniform`. Counters into each stream are threaded
explicitly. -/
structure EvoStreams where
  r : ℕ → ℚ
  ints : ℕ → ℕ
  vals : ℕ → ℚ

/-- `np.random.uniform(lo, hi)` from a `[0,1)` fraction. -/
def uniformIn (lo hi frac : ℚ) : ℚ := lo + (hi - lo) * frac

/-- Population initialization (optimizer.py lines 406-410):
`np.random.uniform(low=[...], high=[...], size=(population_size, n_params))`. -/
def initPopulation (st : EvoStreams) (bounds : List (ℚ × ℚ)) (P nParams : ℕ) :
    List (List ℚ) :=
  (List.range P).map (fun i => (List.range nParams).map (fun j =>
    let b := bounds.getD j (0, 0)
    uniformIn b.1 b.2 (st.vals (i * nParams + j))))

/-- `np.argmax` over a fitness list: first index of the maximum (none on the
empty list, where numpy raises). -/
def argmaxFrom (i : ℕ) : List FVal → Option (ℕ × FVal)
  | [] => none
  | v :: rest =>
    match argmaxFrom (i + 1) rest with
    | none => some (i, v)
    | some jw => if v < jw.2 then some jw else some (i, v)

/-- First index of the maximum fitness with its value
(`np.argmax(fitness_scores)`, optimizer.py line 429). -/
def argmaxIdx (l : List FVal) : Option (ℕ × FVal) := argmaxFrom 0 l

/-- Tournament selection (optimizer.py lines 442-447): `population_size`
rounds, each drawing two distinct indices (`np.random.choice(P, 2,
replace=False)`, which raises when `P < 2`) and keeping the strictly fitter
one (`idx1` wins only on strict `>`). Two integer draws are consumed per
round; the pair is decoded so both indices are in range and distinct. -/
def selectLoop (st : EvoStreams) (P : ℕ) (scores : List FVal)
    (pop : List (List ℚ)) : ℕ → ℕ → Except String (List (List ℚ) × ℕ)
  | 0, ic => .ok ([], ic)
  | k + 1, ic =>
    if P < 2 then
      .error "ValueError: Cannot take a larger sample than population when replace is False"
    else
      let a := st.ints ic % P
      let b0 := st.ints (ic + 1) % (P - 1)
      let b := if a ≤ b0 then b0 + 1 else b0
      let winner := if scores.getD b .negInf < scores.getD a .negInf then a else b
      match selectLoop st P scores pop k (ic + 2) with
      | .error m => .error m
      | .ok (rest, ic') => .ok (pop.getD winner [] :: rest, ic')

/-- Single-point crossover over adjacent pairs (optimizer.py lines 451-457):
`for i in range(0, population_size - 1, 2)`, fire with probability
`crossover_rate`; a firing pair draws `np.random.randint(1, n_params)` —
which raises `ValueError: low >= high` whenever `n_params ≤ 1` — and swaps
the gene tails from that point on. An odd trailing individual is left
untouched. -/
def crossoverLoop (st : EvoStreams) (crossoverRate : ℚ) (nParams : ℕ) :
    List (List ℚ) → ℕ → ℕ → Except String (List (List ℚ) × ℕ × ℕ)
  | x :: y :: rest, rc, ic =>
    if st.r rc < crossoverRate then
      if 1 < nParams then
        let point := 1 + st.ints ic % (nParams - 1)
        match crossoverLoop st crossoverRate nParams rest (rc + 1) (ic + 1) with
        | .error m => .error m
        | .ok (rest', rc', ic') =>
          .ok ((x.take point ++ y.drop point) :: (y.take point ++ x.drop point) :: rest',
               rc', ic')
      else .error "ValueError: low >= high"
    else
      match crossoverLoop st crossoverRate nParams rest (rc + 1) ic with
      | .error m => .error m
      | .ok (rest', rc', ic') => .ok (x :: y :: rest', rc', ic')
  | l, rc, ic => .ok (l, rc, ic)

/-- Per-gene mutation of one individual (optimizer.py lines 460-463): each
gene draws `np.random.random()`; below `mutation_rate` the gene is resampled
uniformly from its lever's bounds. -/
def mutateRow (st : EvoStreams) (mutationRate : ℚ) (bounds : List (ℚ × ℚ)) :
    List ℚ → ℕ → ℕ → ℕ → List ℚ × ℕ × ℕ
  | [], _, rc, vc => ([], rc, vc)
  | g :: gs, j, rc, vc =>
    if st.r rc < mutationRate then
      let b := bounds.getD j (0, 0)
      let res := mutateRow st mutationRate bounds gs (j + 1) (rc + 1) (vc + 1)
      (uniformIn b.1 b.2 (st.vals vc) :: res.1, res.2)
    else
      let res := mutateRow st mutationRate bounds gs (j + 1) (rc + 1) vc
      (g :: res.1, res.2)

/-- Mutation over the whole population (optimizer.py lines 460-463). -/
def mutateLoop (st : EvoStreams) (mutationRate : ℚ) (bounds : List (ℚ × ℚ)) :
    List (List ℚ) → ℕ → ℕ → List (List ℚ) × ℕ × ℕ
  | [], rc, vc => ([], rc, vc)
  | row :: rows, rc, vc =>
    let r1 := mutateRow st mutationRate bounds row 0 rc vc
    let r2 := mutateLoop st mutationRate bounds rows r1.2.1 r1.2.2
    (r1.1 :: r2.1, r2.2)

/-- Elitism (optimizer.py line 466): `population[0] = best_individual`.
Assigning the initial `None` into the numpy array raises, as does indexing
an empty population. -/
def elitism (pop : List (List ℚ)) (best : Option (List ℚ)) :
    Except String (List (List ℚ)) :=
  match best, pop with
  | none, _ => .error "TypeError: float() argument must not be None"
  | some _, [] => .error "IndexError: index 0 is out of bounds"
  | some b, _ :: t => .ok (b :: t)

/-- One per-generation history record (optimizer.py lines 434-439). The
`avg`/`std` statistics are float reductions (`np.mean`/`np.std`, the latter
an irrational square root) supplied by the `stats` parameter. -/
structure GenLog where
  generation : ℕ
  bestFitness : FVal
  avgFitness : FVal
  stdFitness : FVal

/-- Loop state of `EvolutionaryOptimizer.optimize`, with the three RNG
counters and two observation-only logs: `evalLog` accumulates every fitness
value assigned to an evaluated individual, `elitLog` records, per completed
generation, the best-ever individual and population slot 0 after elitism.
Neither log influences the computation. -/
structure EvoState where
  pop : List (List ℚ)
  best : Option (List ℚ × FVal)
  rc : ℕ
  ic : ℕ
  vc : ℕ
  evalLog : List FVal
  elitLog : List (Option (List ℚ) × Option (List ℚ))
  hist : List GenLog

/-- The running `best_fitness` variable (initially `float('-inf')`,
optimizer.py line 413). -/
def bestFOf : Option (List ℚ × FVal) → FVal
  | none => FVal.negInf
  | some p => p.2

/-- One generation of `EvolutionaryOptimizer.optimize` (optimizer.py lines
416-466): evaluate fitness for every individual, track the best-ever
individual under strict improvement, append the history record, then
tournament selection, crossover, mutation, and elitism. -/
def genStep (fit : List ℚ → FVal) (stats : List FVal → FVal × FVal)
    (st : EvoStreams) (crossoverRate mutationRate : ℚ) (bounds : List (ℚ × ℚ))
    (P nParams : ℕ) (gen : ℕ) (s : EvoState) : Except String EvoState :=
  let scores := s.pop.map fit
  match argmaxIdx scores with
  | none => .error "ValueError: attempt to get argmax of an empty sequence"
  | some gv =>
    let best' := if bestFOf s.best < gv.2 then some (s.pop.getD gv.1 [], gv.2) else s.best
    let stat := stats scores
    let entry : GenLog := ⟨gen, bestFOf best', stat.1, stat.2⟩
    match selectLoop st P scores s.pop P s.ic with
    | .error m => .error m
    | .ok (pop1, ic') =>
      match crossoverLoop st crossoverRate nParams pop1 s.rc ic' with
      | .error m => .error m
      | .ok (pop2, rc', ic'') =>
        let m3 := mutateLoop st mutationRate bounds pop2 rc' s.vc
        match elitism m3.1 (best'.map (fun p => p.1)) with
        | .error m => .error m
        | .ok pop4 =>
          .ok { pop := pop4, best := best', rc := m3.2.1, ic := ic'', vc := m3.2.2,
                evalLog := s.evalLog ++ scores,
                elitLog := s.elitLog ++ [(best'.map (fun p => p.1), pop4.head?)],
                hist := s.hist ++ [entry] }

/-- The generation loop (`for gen in range(generations)`). -/
def genLoop (step : ℕ → EvoState → Except String EvoState) :
    ℕ → ℕ → EvoState → Except String EvoState
  | 0, _, s => .ok s
  | k + 1, g, s =>
    match step g s with
    | .error m => .error m
    | .ok s' => genLoop step k (g + 1) s'

/-- `EvolutionaryOptimizer._evaluate_fitness` (optimizer.py lines 475-505):
write the candidate levers into the last time step (no index guard here,
unlike `_predict_with_params`; lengths agree on every modelled path), run
the predictor, average each target over batch and horizon, and compute the
reward. -/
def evaluateFitness (forward : Forward) (rf : RewardFn)
    (baseFeatures : List (List (List ℚ))) (entityIds : List ℤ)
    (indices : List ℕ) (targetNames : List String) (context : PredDict)
    (params : List ℚ) : FVal :=
  RewardFunctionLoader.compute rf
    (predsToDict targetNames
      (forward
        (baseFeatures.map (setLastRow (fun row =>
          indices.enum.foldl (fun r p => r.set p.2 (params.getD p.1 0)) row)))
        entityIds))
    none (some context)

/-- The result dictionary of `EvolutionaryOptimizer.optimize` (optimizer.py
lines 468-473), extended with the two observation-only logs. -/
structure EvoResult where
  optimalParams : List ℚ
  optimalFitness : FVal
  generations : ℕ
  history : List GenLog
  evalLog : List FVal
  elitLog : List (Option (List ℚ) × Option (List ℚ))

/-- `EvolutionaryOptimizer.optimize` (optimizer.py lines 380-473): random
initial population, `generations` rounds of `genStep`, then return the
best-ever individual and fitness (`best_individual.tolist()` raises when no
individual ever improved on `float('-inf')`). -/
def EvolutionaryOptimizer.optimize (forward : Forward) (rf : RewardFn)
    (baseFeatures : List (List (List ℚ))) (entityIds : List ℤ)
    (policyFeatureIndices : List ℕ) (targetNames : List String)
    (bounds : List (ℚ × ℚ)) (populationSize generations : ℕ)
    (mutationRate crossoverRate : ℚ) (context : Option PredDict)
    (stats : List FVal → FVal × FVal) (st : EvoStreams) :
    Except String EvoResult :=
  let nParams := policyFeatureIndices.length
  let ctx := context.getD []
  let fit := evaluateFitness forward rf baseFeatures entityIds policyFeatureIndices
    targetNames ctx
  let P := populationSize
  let pop0 := initPopulation st bounds P nParams
  let s0 : EvoState := ⟨pop0, none, 0, 0, P * nParams, [], [], []⟩
  match genLoop (genStep fit stats st crossoverRate mutationRate bounds P nParams)
      generations 0 s0 with
  | .error m => .error m
  | .ok s =>
    match s.best with
    | none => .error "AttributeError: NoneType object has no attribute tolist"
    | some b => .ok ⟨b.1, b.2, generations, s.hist, s.evalLog, s.elitLog⟩

instance : DecidableEq (Except String ℚ) := fun a b =>
  match a, b with
  | .ok x, .ok y => if h : x = y then isTrue (by rw [h]) else isFalse (by simp [h])
  | .error x, .error y => if h : x = y then isTrue (by rw [h]) else isFalse (by simp [h])
  | .ok _, .error _ => isFalse (by simp)
  | .error _, .ok _ => isFalse (by simp)

/-- A reward function that raises exactly when the predicted `y` equals 1
(witness instance for the isolation theorem). -/
def rfOneBad : RewardFn := fun preds _ _ =>
  match List.lookup "y" preds with
  | some q => if q = 1 then .error "boom" else .ok q
  | none => .ok 0

/-- A loaded reward function that raises on every call (so `compute` yields
`float('-inf')` everywhere). -/
def rfAlwaysFail : RewardFn := fun _ _ _ => .error "always fails"

/-- The single `max` constraint on target `V` with bound 5 used by the C6
counterexample. -/
def cexMaxConstraint : List Constraint := [⟨some "V", some "max", some 5⟩]

/-- A loaded reward function that returns 0 on every call (witness instance
with a finite base reward). -/
def rfZero : RewardFn := fun _ _ _ => .ok 0

/-- A loaded reward function returning the predicted `y` itself (so the
reward landscape over the single lever is the identity). -/
def rfLookupY : RewardFn := fun preds _ _ =>
  match List.lookup "y" preds with
  | some q => .ok q
  | none => .ok 0

/-- The concrete result of the witness run of the local minimizer below. -/
def lbfgsRes : OptResult :=
  { optimalParams := [("x", 7)], optimalReward := .fin 7,
    baselinePredictions := [("y", 0)], optimalPredictions := [("y", 7)],
    improvement := [("y", 7)], iterations := 2,
    history := [⟨[5], [("y", 5)], .fin 5⟩, ⟨[7], [("y", 7)], .fin 7⟩] }

/-- All-zero RNG streams (a valid draw sequence: every `random()` value is
0 ∈ [0, 1)). -/
def zeroStreams : EvoStreams := ⟨fun _ => 0, fun _ => 0, fun _ => 0⟩

/-- Invariant tying an `EvoState` to its observation logs: the running best
fitness dominates every evaluated fitness and is itself one of them once it
exists; the history's best-fitness entries are non-decreasing and all
dominated by the running best; and population slot 0 after each completed
generation holds the best-ever individual. -/
def EvoInv (s : EvoState) : Prop :=
  (∀ x ∈ s.evalLog, x ≤ bestFOf s.best)
  ∧ (∀ p, s.best = some p → p.2 ∈ s.evalLog)
  ∧ (s.hist.map GenLog.bestFitness).Chain' (· ≤ ·)
  ∧ (∀ h ∈ s.hist, h.bestFitness ≤ bestFOf s.best)
  ∧ (∀ e ∈ s.elitLog, e.2 = e.1)

/-- Invariant tying the trainer's best-snapshot fields to the epochs
processed so far: either nothing has been processed and no snapshot exists,
or the snapshot is exactly a processed epoch whose validation loss is
minimal among all processed epochs. -/
def TrainInv {W : Type} (s : TrainerState W) : Prop :=
  (s.bestValLoss = none ∧ s.bestModelState = none ∧ s.processed = [])
  ∨ (∃ m w, s.bestValLoss = some m ∧ s.bestModelState = some w
      ∧ (m, w) ∈ s.processed ∧ ∀ e ∈ s.processed, m ≤ e.1)

/-- The concrete result of the witness run below. -/
def evoRes : EvoResult :=
  ⟨[0], .fin 0, 1, [⟨0, .fin 0, .fin 0, .fin 0⟩], [.fin 0, .fin 0], [(some [0], some [0])]⟩

theorem pyRange_length (a b : ℤ) : (pyRange a b).length = (b - a).toNat := by
  unfold pyRange
  rw [List.length_map, List.length_range]

theorem slidingWindows_length (lookback horizon : ℕ) (feats targs : List (List ℚ)) :
    ((slidingWindows lookback horizon feats targs).length : ℤ)
      = max 0 ((feats.length : ℤ) - lookback - horizon + 1) := by
  simp only [slidingWindows, List.length_map, pyRange_length]
  omega

theorem slidingWindows_eq_nil_of_short (lookback horizon : ℕ)
    (feats targs : List (List ℚ)) (h : feats.length < lookback + horizon) :
    slidingWindows lookback horizon feats targs = [] := by
  have := slidingWindows_length lookback horizon feats targs
  have hz : (slidingWindows lookback horizon feats targs).length = 0 := by omega
  exact List.length_eq_zero.mp hz

theorem panelWindows_length_aux (lookback horizon : ℕ) :
    ∀ (entities : List (List (List ℚ) × List (List ℚ))) (i : ℕ),
      ((List.enumFrom i entities).flatMap (fun p =>
          (slidingWindows lookback horizon p.2.1 p.2.2).map (fun w => (w.1, w.2, p.1)))).length
        = (entities.map (fun e => (slidingWindows lookback horizon e.1 e.2).length)).sum := by
  intro entities
  induction entities with
  | nil => intro i; rfl
  | cons e es ih =>
    intro i
    simp only [List.enumFrom_cons, List.flatMap_cons, List.length_append, List.length_map,
      List.map_cons, List.sum_cons, ih (i + 1)]

theorem panelWindows_length (lookback horizon : ℕ)
    (entities : List (List (List ℚ) × List (List ℚ))) :
    (panelWindows lookback horizon entities).length
      = (entities.map (fun e => (slidingWindows lookback horizon e.1 e.2).length)).sum := by
  have h := panelWindows_length_aux lookback horizon entities 0
  simpa [panelWindows, List.enum] using h

theorem preparePanelData_length (lookback horizon : ℕ)
    (entities : List (List (List ℚ) × List (List ℚ)))
    (featureRawStds targetRawStds : List ℚ) :
    ((preparePanelData lookback horizon entities featureRawStds targetRawStds).length : ℤ)
      = (entities.map (fun e => max 0 ((e.1.length : ℤ) - lookback - horizon + 1))).sum := by
  unfold preparePanelData
  rw [panelWindows_length, List.map_map]
  rw [Nat.cast_list_sum, List.map_map]
  congr 1
  apply List.map_congr_left
  intro e _
  simp only [Function.comp_apply]
  rw [slidingWindows_length]
  rw [List.length_map]

/-- C2: in panel mode, an entity with `T` observations contributes exactly
`max(0, T−L−H+1)` sliding windows; an entity with `T < L+H` contributes zero
windows; and the full preparation totals those per-entity counts without
raising any error (the preparation is a total function). -/
theorem panel_window_count (lookback horizon : ℕ)
    (feats targs : List (List ℚ))
    (entities : List (List (List ℚ) × List (List ℚ)))
    (featureRawStds targetRawStds : List ℚ) :
    ((slidingWindows lookback horizon feats targs).length : ℤ)
        = max 0 ((feats.length : ℤ) - lookback - horizon + 1)
    ∧ (feats.length < lookback + horizon →
        slidingWindows lookback horizon feats targs = [])
    ∧ ((preparePanelData lookback horizon entities featureRawStds targetRawStds).length : ℤ)
        = (entities.map (fun e => max 0 ((e.1.length : ℤ) - lookback - horizon + 1))).sum :=
  ⟨slidingWindows_length lookback horizon feats targs,
   slidingWindows_eq_nil_of_short lookback horizon feats targs,
   preparePanelData_length lookback horizon entities featureRawStds targetRawStds⟩

/-- Closed instance of `panel_window_count` discharging its hypothesis:
three observations with lookback 5 and horizon 1 yield zero windows. -/
theorem panel_window_count_witness :
    (((slidingWindows 5 1 [[0], [0], [0]] [[1], [1], [1]]).length : ℤ)
        = max 0 (((3 : ℕ) : ℤ) - 5 - 1 + 1))
    ∧ ((3 : ℕ) < 5 + 1 ∧ slidingWindows 5 1 [[0], [0], [0]] [[1], [1], [1]] = [])
    ∧ (((preparePanelData 5 1 [([[0], [0], [0]], [[1], [1], [1]])] [1] [1]).length : ℤ)
        = ([([[0], [0], [0]], [[1], [1], [1]])].map
            (fun e => max 0 ((e.1.length : ℤ) - 5 - 1 + 1))).sum) := by
  have h := panel_window_count 5 1 [[0], [0], [0]] [[1], [1], [1]]
    [([[0], [0], [0]], [[1], [1], [1]])] [1] [1]
  exact ⟨h.1, ⟨by norm_num, h.2.1 (by norm_num)⟩, h.2.2⟩

theorem denormalize_normalize (means stds xs : List ℚ)
    (hm : xs.length ≤ means.length) (hs : xs.length ≤ stds.length)
    (hnz : ∀ s ∈ stds, s ≠ 0) :
    denormalizeVec means stds (normalizeVec means stds xs) = xs := by
  induction xs generalizing means stds with
  | nil => cases means <;> cases stds <;> rfl
  | cons x xs ih =>
    match means, stds with
    | m :: ms, s :: ss =>
      simp only [normalizeVec, denormalizeVec, List.cons.injEq]
      constructor
      · have hsne : s ≠ 0 := hnz s (List.mem_cons_self s ss)
        field_simp
      · exact ih ms ss (by simpa using hm) (by simpa using hs)
          (fun t ht => hnz t (List.mem_cons_of_mem s ht))

/-- C7: the fitted standard deviations are the raw (nonnegative) values
floored by `+ 1e-8`, hence never zero, and denormalizing a normalized vector
with the same stored means/stds returns the original vector exactly in
rational arithmetic. -/
theorem normalize_roundtrip (means rawStds xs : List ℚ)
    (hm : xs.length ≤ means.length) (hs : xs.length ≤ rawStds.length)
    (hnn : ∀ s ∈ rawStds, 0 ≤ s) :
    (∀ s ∈ rawStds.map fittedStd, 0 < s)
    ∧ denormalizeVec means (rawStds.map fittedStd)
        (normalizeVec means (rawStds.map fittedStd) xs) = xs := by
  have hpos : ∀ s ∈ rawStds.map fittedStd, 0 < s := by
    intro s hsm
    obtain ⟨t, htm, rfl⟩ := List.mem_map.mp hsm
    have := hnn t htm
    unfold fittedStd
    positivity
  refine ⟨hpos, denormalize_normalize means (rawStds.map fittedStd) xs hm ?_ ?_⟩
  · simpa using hs
  · exact fun s hsm => ne_of_gt (hpos s hsm)

/-- Closed instance of `normalize_roundtrip` discharging its hypotheses on a
concrete vector. -/
theorem normalize_roundtrip_witness :
    (∀ s ∈ ([3, 0] : List ℚ).map fittedStd, 0 < s)
    ∧ denormalizeVec [10, 20] (([3, 0] : List ℚ).map fittedStd)
        (normalizeVec [10, 20] (([3, 0] : List ℚ).map fittedStd) [7, 21]) = [7, 21] :=
  normalize_roundtrip [10, 20] [3, 0] [7, 21] (by norm_num) (by norm_num)
    (by intro s hs; fin_cases hs <;> norm_num)

/-- C9: when the supplied bounds list does not match the number of resolved
policy-feature indices, the bounds are silently replaced by `(0, 1)` per
lever: the effective bounds are `[(0, 1)] * n_params`, and the whole
`optimize` call behaves exactly as if the caller had supplied those default
bounds — same result, same success, no error and no notice of the
substitution. -/
theorem bounds_mismatch_silent_default (forward : Forward) (rf : RewardFn)
    (baseFeatures : List (List (List ℚ))) (entityIds : List ℤ)
    (policyFeatureNames featureNames targetNames : List String)
    (boundsArg : List (ℚ × ℚ)) (initialParams : Option (List ℚ))
    (method : String) (context : Option PredDict)
    (constraints : Option (List Constraint)) (deTrace minTrace : List (List ℚ))
    (h : boundsArg.length ≠ (resolveIndices policyFeatureNames featureNames).length) :
    resolveBounds boundsArg (resolveIndices policyFeatureNames featureNames).length
        = List.replicate (resolveIndices policyFeatureNames featureNames).length (0, 1)
    ∧ PolicyOptimizer.optimize forward rf baseFeatures entityIds policyFeatureNames
        featureNames targetNames boundsArg initialParams method context constraints
        deTrace minTrace
      = PolicyOptimizer.optimize forward rf baseFeatures entityIds policyFeatureNames
        featureNames targetNames
        (List.replicate (resolveIndices policyFeatureNames featureNames).length (0, 1))
        initialParams method context constraints deTrace minTrace := by
  constructor
  · simp [resolveBounds, h]
  · simp only [PolicyOptimizer.optimize]
    rw [show resolveBounds boundsArg (resolveIndices policyFeatureNames featureNames).length
          = List.replicate (resolveIndices policyFeatureNames featureNames).length (0, 1)
        from by simp [resolveBounds, h],
      show resolveBounds
            (List.replicate (resolveIndices policyFeatureNames featureNames).length
              ((0 : ℚ), (1 : ℚ)))
            (resolveIndices policyFeatureNames featureNames).length
          = List.replicate (resolveIndices policyFeatureNames featureNames).length (0, 1)
        from by simp [resolveBounds]]

/-- Closed instance of `bounds_mismatch_silent_default` discharging its
hypothesis: two resolved levers but a single supplied bound. -/
theorem bounds_mismatch_silent_default_witness :
    resolveBounds [((2 : ℚ), (3 : ℚ))] (resolveIndices ["a", "b"] ["a", "b"]).length
        = List.replicate (resolveIndices ["a", "b"] ["a", "b"]).length (0, 1)
    ∧ PolicyOptimizer.optimize (fun x _ => x) (fun _ _ _ => .ok 0) [[[0, 0]]] [0]
        ["a", "b"] ["a", "b"] ["y"] [((2 : ℚ), (3 : ℚ))] none "differential_evolution"
        none none [[0, 0]] []
      = PolicyOptimizer.optimize (fun x _ => x) (fun _ _ _ => .ok 0) [[[0, 0]]] [0]
        ["a", "b"] ["a", "b"] ["y"]
        (List.replicate (resolveIndices ["a", "b"] ["a", "b"]).length (0, 1))
        none "differential_evolution" none none [[0, 0]] [] :=
  bounds_mismatch_silent_default (fun x _ => x) (fun _ _ _ => .ok 0) [[[0, 0]]] [0]
    ["a", "b"] ["a", "b"] ["y"] [((2 : ℚ), (3 : ℚ))] none "differential_evolution"
    none none [[0, 0]] [] (by decide)


theorem constraintStep_negInf_iff (predictions : PredDict) (r : FVal) (c : Constraint) :
    constraintStep predictions r c = .negInf ↔ r = .negInf := by
  unfold constraintStep
  rcases c with ⟨v, t, val⟩
  rcases v with _ | v
  · exact Iff.rfl
  rcases val with _ | val
  · exact Iff.rfl
  dsimp only
  rcases List.lookup v predictions with _ | pv
  · exact Iff.rfl
  dsimp only
  split
  · exact FVal.subQ_eq_negInf_iff r _
  split
  · exact FVal.subQ_eq_negInf_iff r _
  exact Iff.rfl

theorem applyConstraints_negInf_iff (predictions : PredDict) (cs : List Constraint)
    (r : FVal) :
    applyConstraints predictions cs r = .negInf ↔ r = .negInf := by
  induction cs generalizing r with
  | nil => exact Iff.rfl
  | cons c cs ih =>
    show applyConstraints predictions cs (constraintStep predictions r c) = _ ↔ _
    rw [ih, constraintStep_negInf_iff]

theorem compute_negInf_iff (rf : RewardFn) (predictions : PredDict)
    (context : PredDict) :
    RewardFunctionLoader.compute rf predictions none (some context) = .negInf
      ↔ ∃ msg, rf predictions [] context = .error msg := by
  unfold RewardFunctionLoader.compute
  rcases h : rf predictions [] context with q | msg <;> simp_all [Option.getD]

/-- C1: a loaded reward function whose invocation and float coercion succeed
yields exactly that float from `compute`; any exception instead yields
`float('-inf')` without propagating; consequently, over the candidates an
optimizer search evaluates, a reward function that raises for exactly one
candidate records `-inf` for that candidate only — every candidate still
receives a history entry and the loop never aborts. -/
theorem reward_failure_isolated :
    (∀ (rf : RewardFn) (predictions : PredDict) (actual context : Option PredDict) (q : ℚ),
        rf predictions (actual.getD []) (context.getD []) = .ok q →
        RewardFunctionLoader.compute rf predictions actual context = .fin q)
    ∧ (∀ (rf : RewardFn) (predictions : PredDict) (actual context : Option PredDict)
          (msg : String),
        rf predictions (actual.getD []) (context.getD []) = .error msg →
        RewardFunctionLoader.compute rf predictions actual context = .negInf)
    ∧ (∀ (forward : Forward) (rf : RewardFn) (baseFeatures : List (List (List ℚ)))
          (entityIds : List ℤ) (indices : List ℕ) (targetNames : List String)
          (context : PredDict) (cs : List Constraint) (cands : List (List ℚ))
          (c0 : List ℚ),
        (∀ p ∈ cands,
          (∃ msg, rf (predictWithParams forward baseFeatures entityIds indices targetNames p)
              [] context = .error msg) ↔ p = c0) →
        ((cands.map (fun p =>
            (objectiveFunction forward rf baseFeatures entityIds indices targetNames
              context cs p).2)).length = cands.length
         ∧ ∀ p ∈ cands,
            ((objectiveFunction forward rf baseFeatures entityIds indices targetNames
                context cs p).2.reward = .negInf ↔ p = c0))) := by
  refine ⟨?_, ?_, ?_⟩
  · intro rf predictions actual context q h
    unfold RewardFunctionLoader.compute
    rw [h]
  · intro rf predictions actual context msg h
    unfold RewardFunctionLoader.compute
    rw [h]
  · intro forward rf baseFeatures entityIds indices targetNames context cs cands c0 hexact
    refine ⟨List.length_map _ _, ?_⟩
    intro p hp
    rw [← hexact p hp]
    show applyConstraints _ cs _ = _ ↔ _
    rw [applyConstraints_negInf_iff, compute_negInf_iff]

/-- Closed instance of `reward_failure_isolated` discharging its hypotheses:
over the two candidates `[1]` and `[2]` the reward function raises exactly
at `[1]`, and exactly that candidate records `-inf`. -/
theorem reward_failure_isolated_witness :
    RewardFunctionLoader.compute rfOneBad [("y", 2)] none (some []) = .fin 2
    ∧ RewardFunctionLoader.compute rfOneBad [("y", 1)] none (some []) = .negInf
    ∧ ((([[1], [2]] : List (List ℚ)).map (fun p =>
          (objectiveFunction (fun x _ => x) rfOneBad [[[0]]] [0] [0] ["y"] [] [] p).2)).length
        = ([[1], [2]] : List (List ℚ)).length
       ∧ ∀ p ∈ ([[1], [2]] : List (List ℚ)),
          ((objectiveFunction (fun x _ => x) rfOneBad [[[0]]] [0] [0] ["y"] [] [] p).2.reward
            = .negInf ↔ p = [1])) :=
  ⟨reward_failure_isolated.1 rfOneBad [("y", 2)] none (some []) 2 (by rfl),
   reward_failure_isolated.2.1 rfOneBad [("y", 1)] none (some []) "boom" (by rfl),
   reward_failure_isolated.2.2 (fun x _ => x) rfOneBad [[[0]]] [0] [0] ["y"] [] []
     [[1], [2]] [1] (by
       have hpred1 : predictWithParams (fun x _ => x) [[[0]]] [0] [0] ["y"] [1] = [("y", 1)] := by
         norm_num [predictWithParams, predsToDict, targetColMean, qMean, modifyFeatures,
           setLastRow, overwriteLevers, List.enum]
         decide
       have hpred2 : predictWithParams (fun x _ => x) [[[0]]] [0] [0] ["y"] [2] = [("y", 2)] := by
         norm_num [predictWithParams, predsToDict, targetColMean, qMean, modifyFeatures,
           setLastRow, overwriteLevers, List.enum]
         decide
       intro p hp
       rcases List.mem_cons.mp hp with rfl | hp
       · rw [hpred1]
         exact ⟨fun _ => rfl, fun _ => ⟨"boom", rfl⟩⟩
       rcases List.mem_cons.mp hp with rfl | hp
       · rw [hpred2]
         refine ⟨?_, ?_⟩
         · rintro ⟨msg, h⟩
           have h2 : (Except.ok (2 : ℚ) : Except String ℚ) = .error msg := h
           exact absurd h2 (by simp)
         · intro h
           exact absurd h (by decide)
       · exact absurd hp (List.not_mem_nil p))⟩

theorem numBatches_zero (batchSize : ℕ) : numBatches 0 batchSize = 0 := by
  cases batchSize with
  | zero => rfl
  | succ b =>
    unfold numBatches
    exact Nat.div_eq_of_lt (by omega)

/-- C4 counterexample: a panel request whose single entity has 3
observations with lookback 5 and horizon 1 (so zero windows exist anywhere)
is NOT rejected during data preparation — the pipeline reaches model
construction (`modelBuiltThen`, the `PanelTransformer(...)` call of main.py
line 144) and only afterwards fails, with a `ZeroDivisionError` from the
zero-batch first training epoch. This refutes the claim that the
insufficiency is reported before any model is constructed. -/
theorem insufficiency_reported_late_cex :
    handleTrainCore 5 1 [([[0], [0], [0]], [[1], [1], [1]])] [1] [1] [] 32
      = .modelBuiltThen (.error "ZeroDivisionError: division by zero") := by
  rfl

/-- C4 amended: when every entity has fewer than `lookback + horizon`
observations, data preparation returns an empty window set without any
error, a predictor is then constructed unconditionally, and the failure
surfaces only afterwards as a `ZeroDivisionError` in the first training
epoch (zero batches); it is caught at the request boundary, not before
model construction. -/
theorem insufficiency_surfaces_after_model (lookback horizon : ℕ)
    (entities : List (List (List ℚ) × List (List ℚ)))
    (featureRawStds targetRawStds : List ℚ) (perm : List ℕ) (batchSize : ℕ)
    (h : ∀ e ∈ entities, e.1.length < lookback + horizon) :
    preparePanelData lookback horizon entities featureRawStds targetRawStds = []
    ∧ handleTrainCore lookback horizon entities featureRawStds targetRawStds perm batchSize
      = .modelBuiltThen (.error "ZeroDivisionError: division by zero") := by
  have hnil : preparePanelData lookback horizon entities featureRawStds targetRawStds = [] := by
    have hlen := preparePanelData_length lookback horizon entities featureRawStds targetRawStds
    have hsum : (entities.map
        (fun e => max 0 ((e.1.length : ℤ) - lookback - horizon + 1))).sum = 0 := by
      apply List.sum_eq_zero
      intro x hx
      obtain ⟨e, he, rfl⟩ := List.mem_map.mp hx
      have := h e he
      omega
    rw [hsum] at hlen
    exact List.length_eq_zero.mp (by exact_mod_cast hlen)
  refine ⟨hnil, ?_⟩
  have hsplit : (splitData perm ([] : List (List (List ℚ) × List (List ℚ) × ℕ))).1 = [] := by
    unfold splitData
    simp
  show TrainOutcome.modelBuiltThen
      (trainEpochOutcome (splitData perm
        (preparePanelData lookback horizon entities featureRawStds targetRawStds)).1.length
        batchSize) = _
  rw [hnil, hsplit]
  simp [trainEpochOutcome, numBatches_zero]

/-- Closed instance of `insufficiency_surfaces_after_model` discharging its
hypothesis on a concrete short entity. -/
theorem insufficiency_surfaces_after_model_witness :
    preparePanelData 5 1 [([[0], [0], [0]], [[1], [1], [1]])] [1] [1] = []
    ∧ handleTrainCore 5 1 [([[0], [0], [0]], [[1], [1], [1]])] [1] [1] [0, 1] 32
      = .modelBuiltThen (.error "ZeroDivisionError: division by zero") :=
  insufficiency_surfaces_after_model 5 1 [([[0], [0], [0]], [[1], [1], [1]])] [1] [1]
    [0, 1] 32 (by
      intro e he
      rcases List.mem_cons.mp he with rfl | he
      · norm_num
      · exact absurd he (List.not_mem_nil e))

theorem epochStep_inv {W : Type} (s : TrainerState W) (e : ℚ × W)
    (h : TrainInv s) : TrainInv (epochStep s e) := by
  rcases h with ⟨h1, h2, h3⟩ | ⟨m, w, h1, h2, h3, h4⟩
  · unfold epochStep
    rw [h1]
    right
    exact ⟨e.1, e.2, rfl, rfl, by rw [h3]; simp, by rw [h3]; simp⟩
  · unfold epochStep
    rw [h1]
    dsimp only
    by_cases hlt : e.1 < m
    · rw [if_pos (by simpa using hlt)]
      right
      refine ⟨e.1, e.2, rfl, rfl, by simp, ?_⟩
      intro e' he'
      rcases List.mem_append.mp he' with he' | he'
      · exact le_of_lt (lt_of_lt_of_le hlt (h4 e' he'))
      · rcases List.mem_singleton.mp he' with rfl
        exact le_refl _
    · rw [if_neg (by simpa using hlt)]
      right
      refine ⟨m, w, rfl, h2, List.mem_append_left _ h3, ?_⟩
      intro e' he'
      rcases List.mem_append.mp he' with he' | he'
      · exact h4 e' he'
      · rcases List.mem_singleton.mp he' with rfl
        exact le_of_not_lt hlt

theorem trainLoop_inv {W : Type} (patienceLimit : ℕ) :
    ∀ (epochs : List (ℚ × W)) (s : TrainerState W),
      TrainInv s → TrainInv (trainLoop patienceLimit epochs s) := by
  intro epochs
  induction epochs with
  | nil => intro s h; exact h
  | cons e rest ih =>
    intro s h
    show TrainInv (if _ then _ else _)
    split
    · exact epochStep_inv s e h
    · exact ih _ (epochStep_inv s e h)

theorem epochStep_processed {W : Type} (s : TrainerState W) (e : ℚ × W) :
    (epochStep s e).processed = s.processed ++ [e] := by
  unfold epochStep
  dsimp only
  split <;> rfl

theorem trainLoop_processed_ne_nil {W : Type} (patienceLimit : ℕ) :
    ∀ (epochs : List (ℚ × W)) (s : TrainerState W),
      s.processed ≠ [] → (trainLoop patienceLimit epochs s).processed ≠ [] := by
  intro epochs
  induction epochs with
  | nil => intro s h; exact h
  | cons e rest ih =>
    intro s h
    have hstep : (epochStep s e).processed ≠ [] := by
      rw [epochStep_processed]
      simp
    show ((if _ then _ else _ : TrainerState W)).processed ≠ []
    split
    · exact hstep
    · exact ih _ hstep

/-- C5: however training terminates — early stopping after `patienceLimit`
consecutive epochs without validation-loss improvement, or exhaustion of the
epoch budget — the weights restored at return time are the snapshot of a
processed epoch whose validation loss is minimal over all processed epochs
(the snapshot of the lowest observed validation loss). -/
theorem best_snapshot_restored {W : Type} (patienceLimit : ℕ)
    (epochs : List (ℚ × W)) (init : W) (h : epochs ≠ []) :
    ∃ e ∈ (PolicyTrainer.train patienceLimit epochs init).processed,
      restoredWeights (PolicyTrainer.train patienceLimit epochs init) = e.2
      ∧ ∀ e' ∈ (PolicyTrainer.train patienceLimit epochs init).processed, e.1 ≤ e'.1 := by
  have hinv : TrainInv (PolicyTrainer.train patienceLimit epochs init) := by
    apply trainLoop_inv
    left
    exact ⟨rfl, rfl, rfl⟩
  have hne : (PolicyTrainer.train patienceLimit epochs init).processed ≠ [] := by
    unfold PolicyTrainer.train
    rcases epochs with _ | ⟨e, rest⟩
    · exact absurd rfl h
    show ((if _ then _ else _ : TrainerState W)).processed ≠ []
    have hstep : (epochStep ⟨none, none, 0, [], [], init⟩ e).processed ≠ [] := by
      rw [epochStep_processed]
      simp
    split
    · exact hstep
    · exact trainLoop_processed_ne_nil patienceLimit rest _ hstep
  rcases hinv with ⟨_, _, h3⟩ | ⟨m, w, _, h2, h3, h4⟩
  · exact absurd h3 hne
  · exact ⟨(m, w), h3, by unfold restoredWeights; rw [h2]; rfl, h4⟩

/-- Closed instance of `best_snapshot_restored` discharging its hypothesis:
a three-epoch run whose middle epoch has the lowest validation loss. -/
theorem best_snapshot_restored_witness :
    ∃ e ∈ (PolicyTrainer.train 15 [(2, 10), (1, 11), (3, 12)] (0 : ℕ)).processed,
      restoredWeights (PolicyTrainer.train 15 [(2, 10), (1, 11), (3, 12)] (0 : ℕ)) = e.2
      ∧ ∀ e' ∈ (PolicyTrainer.train 15 [(2, 10), (1, 11), (3, 12)] (0 : ℕ)).processed,
          e.1 ≤ e'.1 :=
  best_snapshot_restored 15 [(2, 10), (1, 11), (3, 12)] 0 (by decide)

/-- C6 counterexample: with a reward function that raises (base reward
`-inf` for both candidates, i.e. the same base reward), the candidate whose
predicted `V = 6` exceeds the `max` bound 5 does NOT score strictly worse
than the otherwise identical candidate with `V = 4 ≤ 5`: the soft penalty is
absorbed by `-inf` and both record exactly `-inf`. -/
theorem constraint_not_strictly_worse_cex :
    ((objectiveFunction (fun x _ => x) rfAlwaysFail [[[0]]] [0] [0] ["V"] []
        cexMaxConstraint [6]).2.predictions.lookup "V" = some 6)
    ∧ ((objectiveFunction (fun x _ => x) rfAlwaysFail [[[0]]] [0] [0] ["V"] []
        cexMaxConstraint [4]).2.predictions.lookup "V" = some 4)
    ∧ ((objectiveFunction (fun x _ => x) rfAlwaysFail [[[0]]] [0] [0] ["V"] []
        cexMaxConstraint [6]).2.reward = .negInf)
    ∧ ((objectiveFunction (fun x _ => x) rfAlwaysFail [[[0]]] [0] [0] ["V"] []
        cexMaxConstraint [6]).2.reward
      = (objectiveFunction (fun x _ => x) rfAlwaysFail [[[0]]] [0] [0] ["V"] []
        cexMaxConstraint [4]).2.reward) := by
  have hp6 : predictWithParams (fun x _ => x) [[[0]]] [0] [0] ["V"] [6] = [("V", 6)] := by
    norm_num [predictWithParams, predsToDict, targetColMean, qMean, modifyFeatures,
      setLastRow, overwriteLevers, List.enum]
    decide
  have hp4 : predictWithParams (fun x _ => x) [[[0]]] [0] [0] ["V"] [4] = [("V", 4)] := by
    norm_num [predictWithParams, predsToDict, targetColMean, qMean, modifyFeatures,
      setLastRow, overwriteLevers, List.enum]
    decide
  have h6 : (objectiveFunction (fun x _ => x) rfAlwaysFail [[[0]]] [0] [0] ["V"] []
      cexMaxConstraint [6]).2 = ⟨[6], [("V", 6)], .negInf⟩ := by
    simp only [objectiveFunction]
    rw [hp6]
    rfl
  have h4 : (objectiveFunction (fun x _ => x) rfAlwaysFail [[[0]]] [0] [0] ["V"] []
      cexMaxConstraint [4]).2 = ⟨[4], [("V", 4)], .negInf⟩ := by
    simp only [objectiveFunction]
    rw [hp4]
    rfl
  rw [h6, h4]
  exact ⟨rfl, rfl, rfl, rfl⟩

/-- C6 amended: for a finite base reward (the loaded reward call succeeds),
a violated `max` constraint subtracts exactly `1000 × (V − M)` from the
reward as a soft penalty — the candidate is still evaluated and recorded,
never hard-rejected — and the violating candidate scores strictly worse than
an otherwise identical candidate (same finite base reward) whose `V ≤ M`;
symmetrically for `min`. With base reward `−∞` both candidates record `−∞`
(see the counterexample), which is the only amendment. -/
theorem constraint_soft_penalty :
    (∀ (forward : Forward) (rf : RewardFn) (baseFeatures : List (List (List ℚ)))
        (entityIds : List ℤ) (indices : List ℕ) (targetNames : List String)
        (ctx : PredDict) (V : String) (M r v1 v2 : ℚ) (p1 p2 : List ℚ),
      RewardFunctionLoader.compute rf
          (predictWithParams forward baseFeatures entityIds indices targetNames p1)
          none (some ctx) = .fin r →
      RewardFunctionLoader.compute rf
          (predictWithParams forward baseFeatures entityIds indices targetNames p2)
          none (some ctx) = .fin r →
      (predictWithParams forward baseFeatures entityIds indices targetNames p1).lookup V
          = some v1 →
      M < v1 →
      (predictWithParams forward baseFeatures entityIds indices targetNames p2).lookup V
          = some v2 →
      v2 ≤ M →
      ((objectiveFunction forward rf baseFeatures entityIds indices targetNames ctx
          [⟨some V, some "max", some M⟩] p1).2.reward = .fin (r - 1000 * (v1 - M))
       ∧ (objectiveFunction forward rf baseFeatures entityIds indices targetNames ctx
          [⟨some V, some "max", some M⟩] p2).2.reward = .fin r
       ∧ (objectiveFunction forward rf baseFeatures entityIds indices targetNames ctx
          [⟨some V, some "max", some M⟩] p1).2.reward
         < (objectiveFunction forward rf baseFeatures entityIds indices targetNames ctx
          [⟨some V, some "max", some M⟩] p2).2.reward))
    ∧ (∀ (forward : Forward) (rf : RewardFn) (baseFeatures : List (List (List ℚ)))
        (entityIds : List ℤ) (indices : List ℕ) (targetNames : List String)
        (ctx : PredDict) (V : String) (M r v1 v2 : ℚ) (p1 p2 : List ℚ),
      RewardFunctionLoader.compute rf
          (predictWithParams forward baseFeatures entityIds indices targetNames p1)
          none (some ctx) = .fin r →
      RewardFunctionLoader.compute rf
          (predictWithParams forward baseFeatures entityIds indices targetNames p2)
          none (some ctx) = .fin r →
      (predictWithParams forward baseFeatures entityIds indices targetNames p1).lookup V
          = some v1 →
      v1 < M →
      (predictWithParams forward baseFeatures entityIds indices targetNames p2).lookup V
          = some v2 →
      M ≤ v2 →
      ((objectiveFunction forward rf baseFeatures entityIds indices targetNames ctx
          [⟨some V, some "min", some M⟩] p1).2.reward = .fin (r - 1000 * (M - v1))
       ∧ (objectiveFunction forward rf baseFeatures entityIds indices targetNames ctx
          [⟨some V, some "min", some M⟩] p2).2.reward = .fin r
       ∧ (objectiveFunction forward rf baseFeatures entityIds indices targetNames ctx
          [⟨some V, some "min", some M⟩] p1).2.reward
         < (objectiveFunction forward rf baseFeatures entityIds indices targetNames ctx
          [⟨some V, some "min", some M⟩] p2).2.reward)) := by
  constructor
  · intro forward rf baseFeatures entityIds indices targetNames ctx V M r v1 v2 p1 p2
      h1 h2 hv1 hgt hv2 hle
    have e1 : (objectiveFunction forward rf baseFeatures entityIds indices targetNames ctx
        [⟨some V, some "max", some M⟩] p1).2.reward = .fin (r - 1000 * (v1 - M)) := by
      show applyConstraints _ _ _ = _
      rw [h1]
      unfold applyConstraints
      simp only [List.foldl]
      unfold constraintStep
      dsimp only
      rw [hv1]
      simp only [Option.getD_some]
      rw [if_pos ⟨by trivial, hgt⟩]
      rfl
    have e2 : (objectiveFunction forward rf baseFeatures entityIds indices targetNames ctx
        [⟨some V, some "max", some M⟩] p2).2.reward = .fin r := by
      show applyConstraints _ _ _ = _
      rw [h2]
      unfold applyConstraints
      simp only [List.foldl]
      unfold constraintStep
      dsimp only
      rw [hv2]
      simp only [Option.getD_some]
      rw [if_neg (fun hc => absurd hc.2 (not_lt.mpr hle)),
        if_neg (fun hc => absurd hc.1 (by decide))]
    refine ⟨e1, e2, ?_⟩
    rw [e1, e2]
    show FVal.blt _ _ = true
    simp only [FVal.blt, decide_eq_true_eq]
    linarith
  · intro forward rf baseFeatures entityIds indices targetNames ctx V M r v1 v2 p1 p2
      h1 h2 hv1 hlt hv2 hge
    have e1 : (objectiveFunction forward rf baseFeatures entityIds indices targetNames ctx
        [⟨some V, some "min", some M⟩] p1).2.reward = .fin (r - 1000 * (M - v1)) := by
      show applyConstraints _ _ _ = _
      rw [h1]
      unfold applyConstraints
      simp only [List.foldl]
      unfold constraintStep
      dsimp only
      rw [hv1]
      simp only [Option.getD_some]
      rw [if_neg (fun hc => absurd hc.1 (by decide)), if_pos ⟨by trivial, hlt⟩]
      rfl
    have e2 : (objectiveFunction forward rf baseFeatures entityIds indices targetNames ctx
        [⟨some V, some "min", some M⟩] p2).2.reward = .fin r := by
      show applyConstraints _ _ _ = _
      rw [h2]
      unfold applyConstraints
      simp only [List.foldl]
      unfold constraintStep
      dsimp only
      rw [hv2]
      simp only [Option.getD_some]
      rw [if_neg (fun hc => absurd hc.1 (by decide)),
        if_neg (fun hc => absurd hc.2 (not_lt.mpr hge))]
    refine ⟨e1, e2, ?_⟩
    rw [e1, e2]
    show FVal.blt _ _ = true
    simp only [FVal.blt, decide_eq_true_eq]
    linarith

/-- Closed instance of `constraint_soft_penalty` discharging its hypotheses
for both the `max` and the `min` constraint type. -/
theorem constraint_soft_penalty_witness :
    ((objectiveFunction (fun x _ => x) rfZero [[[0]]] [0] [0] ["V"] []
        [⟨some "V", some "max", some 5⟩] [6]).2.reward = .fin (0 - 1000 * (6 - 5))
     ∧ (objectiveFunction (fun x _ => x) rfZero [[[0]]] [0] [0] ["V"] []
        [⟨some "V", some "max", some 5⟩] [4]).2.reward = .fin 0
     ∧ (objectiveFunction (fun x _ => x) rfZero [[[0]]] [0] [0] ["V"] []
        [⟨some "V", some "max", some 5⟩] [6]).2.reward
       < (objectiveFunction (fun x _ => x) rfZero [[[0]]] [0] [0] ["V"] []
        [⟨some "V", some "max", some 5⟩] [4]).2.reward)
    ∧ ((objectiveFunction (fun x _ => x) rfZero [[[0]]] [0] [0] ["V"] []
        [⟨some "V", some "min", some 5⟩] [4]).2.reward = .fin (0 - 1000 * (5 - 4))
     ∧ (objectiveFunction (fun x _ => x) rfZero [[[0]]] [0] [0] ["V"] []
        [⟨some "V", some "min", some 5⟩] [6]).2.reward = .fin 0
     ∧ (objectiveFunction (fun x _ => x) rfZero [[[0]]] [0] [0] ["V"] []
        [⟨some "V", some "min", some 5⟩] [4]).2.reward
       < (objectiveFunction (fun x _ => x) rfZero [[[0]]] [0] [0] ["V"] []
        [⟨some "V", some "min", some 5⟩] [6]).2.reward) := by
  have hp6 : predictWithParams (fun x _ => x) [[[0]]] [0] [0] ["V"] [6] = [("V", 6)] := by
    norm_num [predictWithParams, predsToDict, targetColMean, qMean, modifyFeatures,
      setLastRow, overwriteLevers, List.enum]
    decide
  have hp4 : predictWithParams (fun x _ => x) [[[0]]] [0] [0] ["V"] [4] = [("V", 4)] := by
    norm_num [predictWithParams, predsToDict, targetColMean, qMean, modifyFeatures,
      setLastRow, overwriteLevers, List.enum]
    decide
  constructor
  · exact constraint_soft_penalty.1 (fun x _ => x) rfZero [[[0]]] [0] [0] ["V"] []
      "V" 5 0 6 4 [6] [4] rfl rfl (by rw [hp6]; rfl) (by norm_num)
      (by rw [hp4]; rfl) (by norm_num)
  · exact constraint_soft_penalty.2 (fun x _ => x) rfZero [[[0]]] [0] [0] ["V"] []
      "V" 5 0 4 6 [4] [6] rfl rfl (by rw [hp4]; rfl) (by norm_num)
      (by rw [hp6]; rfl) (by norm_num)

theorem argminF_eq_none {α : Type} (f : α → FVal) :
    ∀ l : List α, argminF f l = none → l = [] := by
  intro l
  cases l with
  | nil => intro _; rfl
  | cons x xs =>
    intro h
    exfalso
    unfold argminF at h
    rcases h2 : argminF f xs with _ | ⟨y, fy⟩ <;> rw [h2] at h <;> dsimp only at h
    · exact Option.noConfusion h
    · split at h <;> exact Option.noConfusion h

theorem argminF_spec {α : Type} (f : α → FVal) :
    ∀ (l : List α) (a : α) (v : FVal), argminF f l = some (a, v) →
      v = f a ∧ a ∈ l ∧ ∀ x ∈ l, v ≤ f x := by
  intro l
  induction l with
  | nil => intro a v h; cases h
  | cons x xs ih =>
    intro a v h
    unfold argminF at h
    rcases hrec : argminF f xs with _ | ⟨y, fy⟩ <;> rw [hrec] at h <;> dsimp only at h
    · injection h with h
      rw [Prod.mk.injEq] at h
      obtain ⟨rfl, rfl⟩ := h
      have hnil := argminF_eq_none f xs hrec
      subst hnil
      exact ⟨rfl, List.mem_cons_self _ _, by
        intro z hz
        rcases List.mem_cons.mp hz with rfl | hz
        · exact le_refl _
        · exact absurd hz (List.not_mem_nil z)⟩
    · obtain ⟨hfy, hymem, hybound⟩ := ih y fy hrec
      by_cases hc : f x ≤ fy
      · rw [if_pos hc] at h
        injection h with h
        rw [Prod.mk.injEq] at h
        obtain ⟨rfl, rfl⟩ := h
        refine ⟨rfl, List.mem_cons_self _ _, ?_⟩
        intro z hz
        rcases List.mem_cons.mp hz with rfl | hz
        · exact le_refl _
        · exact le_trans hc (hybound z hz)
      · rw [if_neg hc] at h
        injection h with h
        rw [Prod.mk.injEq] at h
        obtain ⟨rfl, rfl⟩ := h
        refine ⟨hfy, List.mem_cons_of_mem x hymem, ?_⟩
        intro z hz
        rcases List.mem_cons.mp hz with rfl | hz
        · exact le_of_lt (lt_of_not_le hc)
        · exact hybound z hz

theorem objectiveFunction_fst (forward : Forward) (rf : RewardFn)
    (baseFeatures : List (List (List ℚ))) (entityIds : List ℤ) (indices : List ℕ)
    (targetNames : List String) (context : PredDict) (constraints : List Constraint)
    (params : List ℚ) :
    (objectiveFunction forward rf baseFeatures entityIds indices targetNames context
        constraints params).1
      = ((objectiveFunction forward rf baseFeatures entityIds indices targetNames context
        constraints params).2.reward).neg := rfl

/-- C3 counterexample: with the default `differential_evolution` method the
source never passes `initial_params` to the search (optimizer.py lines
241-252), so nothing forces the initial lever point to be evaluated. For a
seeded population trace that misses the default midpoint `[5]` of the bounds
`(0, 10)`, the returned `optimal_reward` is 1 while the objective reward at
the initial point is 5 — strictly greater, refuting the claimed inequality
for the default search method. -/
theorem optimal_reward_vs_initial_cex :
    PolicyOptimizer.optimize (fun x _ => x) rfLookupY [[[0]]] [0] ["x"] ["x"] ["y"]
        [(0, 10)] none "differential_evolution" none none [[1]] []
      = .ok { optimalParams := [("x", 1)], optimalReward := .fin 1,
              baselinePredictions := [("y", 0)], optimalPredictions := [("y", 1)],
              improvement := [("y", 1)], iterations := 1,
              history := [⟨[1], [("y", 1)], .fin 1⟩] }
    ∧ defaultInitial (resolveBounds [(0, 10)] (resolveIndices ["x"] ["x"]).length) = [5]
    ∧ (objectiveFunction (fun x _ => x) rfLookupY [[[0]]] [0] [0] ["y"] [] [] [5]).2.reward
        = .fin 5
    ∧ FVal.fin 1 < FVal.fin 5 := by
  have hidx : resolveIndices ["x"] ["x"] = [0] := by decide
  have hp1 : predictWithParams (fun x _ => x) [[[0]]] [0] [0] ["y"] [1] = [("y", 1)] := by
    norm_num [predictWithParams, predsToDict, targetColMean, qMean, modifyFeatures,
      setLastRow, overwriteLevers, List.enum]
    decide
  have hp0 : predictWithParams (fun x _ => x) [[[0]]] [0] [0] ["y"] [0] = [("y", 0)] := by
    norm_num [predictWithParams, predsToDict, targetColMean, qMean, modifyFeatures,
      setLastRow, overwriteLevers, List.enum]
    decide
  have hp5 : predictWithParams (fun x _ => x) [[[0]]] [0] [0] ["y"] [5] = [("y", 5)] := by
    norm_num [predictWithParams, predsToDict, targetColMean, qMean, modifyFeatures,
      setLastRow, overwriteLevers, List.enum]
    decide
  have hbase : baselineLeverMeans [[[(0 : ℚ)]]] [0] = [0] := by
    norm_num [baselineLeverMeans, qMean]
  have hobj1 : objectiveFunction (fun x _ => x) rfLookupY [[[0]]] [0] [0] ["y"] [] [] [1]
      = (.fin (-1), ⟨[1], [("y", 1)], .fin 1⟩) := by
    simp only [objectiveFunction]
    rw [hp1]
    rfl
  refine ⟨?_, by rw [hidx]; norm_num [defaultInitial, resolveBounds], ?_, by decide⟩
  · simp only [PolicyOptimizer.optimize, hidx]
    norm_num [resolveBounds, defaultInitial, hobj1, argminF, takeLast, hbase, hp0, hp1]
    rfl
  · show applyConstraints _ _ _ = _
    rw [hp5]
    rfl

/-- C3 amended: for the local minimizer methods (every `method` other than
`'differential_evolution'`), scipy starts from the initial lever point —
the caller-supplied `initial_params` or the bounds midpoints — evaluates it,
and returns the best evaluated point, so `optimal_reward` is at least the
objective reward at the initial point. For the default
`differential_evolution` method the source discards `initial_params`
entirely and no such guarantee holds (see the counterexample). -/
theorem optimal_reward_ge_initial_local (forward : Forward) (rf : RewardFn)
    (baseFeatures : List (List (List ℚ))) (entityIds : List ℤ)
    (policyFeatureNames featureNames targetNames : List String)
    (boundsArg : List (ℚ × ℚ)) (initialParams : Option (List ℚ))
    (method : String) (context : Option PredDict)
    (constraints : Option (List Constraint)) (deTrace minTrace : List (List ℚ))
    (res : OptResult)
    (hm : method ≠ "differential_evolution")
    (hok : PolicyOptimizer.optimize forward rf baseFeatures entityIds policyFeatureNames
        featureNames targetNames boundsArg initialParams method context constraints
        deTrace minTrace = .ok res) :
    (objectiveFunction forward rf baseFeatures entityIds
        (resolveIndices policyFeatureNames featureNames) targetNames
        (context.getD []) (constraints.getD [])
        (initialParams.getD (defaultInitial (resolveBounds boundsArg
          (resolveIndices policyFeatureNames featureNames).length)))).2.reward
      ≤ res.optimalReward := by
  simp only [PolicyOptimizer.optimize, if_neg hm] at hok
  split at hok
  · cases hok
  · split at hok
    · cases hok
    · rename_i e fmin heq
      obtain ⟨_, _, hbound⟩ := argminF_spec _ _ _ _ heq
      have hle := hbound _ (List.mem_map_of_mem _ (List.mem_cons_self _ _))
      dsimp only at hle
      rw [objectiveFunction_fst] at hle
      have hfin := FVal.neg_le_neg hle
      rw [FVal.neg_neg] at hfin
      injection hok with hok
      rw [← hok]
      exact hfin

/-- Closed instance of `optimal_reward_ge_initial_local` discharging its
hypotheses: an `'L-BFGS-B'` run whose solver trace visits `[7]`, starting
from the default midpoint `[5]`. -/
theorem optimal_reward_ge_initial_local_witness :
    PolicyOptimizer.optimize (fun x _ => x) rfLookupY [[[0]]] [0] ["x"] ["x"] ["y"]
        [(0, 10)] none "L-BFGS-B" none none [] [[7]] = .ok lbfgsRes
    ∧ (objectiveFunction (fun x _ => x) rfLookupY [[[0]]] [0]
        (resolveIndices ["x"] ["x"]) ["y"]
        ((none : Option PredDict).getD []) ((none : Option (List Constraint)).getD [])
        ((none : Option (List ℚ)).getD (defaultInitial (resolveBounds [(0, 10)]
          (resolveIndices ["x"] ["x"]).length)))).2.reward
      ≤ lbfgsRes.optimalReward := by
  have hidx : resolveIndices ["x"] ["x"] = [0] := by decide
  have hp5 : predictWithParams (fun x _ => x) [[[0]]] [0] [0] ["y"] [5] = [("y", 5)] := by
    norm_num [predictWithParams, predsToDict, targetColMean, qMean, modifyFeatures,
      setLastRow, overwriteLevers, List.enum]
    decide
  have hp7 : predictWithParams (fun x _ => x) [[[0]]] [0] [0] ["y"] [7] = [("y", 7)] := by
    norm_num [predictWithParams, predsToDict, targetColMean, qMean, modifyFeatures,
      setLastRow, overwriteLevers, List.enum]
    decide
  have hp0 : predictWithParams (fun x _ => x) [[[0]]] [0] [0] ["y"] [0] = [("y", 0)] := by
    norm_num [predictWithParams, predsToDict, targetColMean, qMean, modifyFeatures,
      setLastRow, overwriteLevers, List.enum]
    decide
  have hbase : baselineLeverMeans [[[(0 : ℚ)]]] [0] = [0] := by
    norm_num [baselineLeverMeans, qMean]
  have hobj5 : objectiveFunction (fun x _ => x) rfLookupY [[[0]]] [0] [0] ["y"] [] [] [5]
      = (.fin (-5), ⟨[5], [("y", 5)], .fin 5⟩) := by
    simp only [objectiveFunction]
    rw [hp5]
    rfl
  have hobj7 : objectiveFunction (fun x _ => x) rfLookupY [[[0]]] [0] [0] ["y"] [] [] [7]
      = (.fin (-7), ⟨[7], [("y", 7)], .fin 7⟩) := by
    simp only [objectiveFunction]
    rw [hp7]
    rfl
  have hinit : defaultInitial (resolveBounds [((0 : ℚ), (10 : ℚ))] 1) = [5] := by
    norm_num [defaultInitial, resolveBounds]
  have hle57 : ¬ (FVal.fin (-5) ≤ FVal.fin (-7)) := by decide
  have hsm : ("L-BFGS-B" = "differential_evolution") = False := by decide
  have hrun : PolicyOptimizer.optimize (fun x _ => x) rfLookupY [[[0]]] [0] ["x"] ["x"]
      ["y"] [(0, 10)] none "L-BFGS-B" none none [] [[7]] = .ok lbfgsRes := by
    simp only [PolicyOptimizer.optimize, hidx, hsm, if_false]
    norm_num [resolveBounds, defaultInitial, hobj5, hobj7, argminF, takeLast, hbase,
      hp0, hp5, hp7, lbfgsRes, hle57, FVal.neg]
  exact ⟨hrun, optimal_reward_ge_initial_local (fun x _ => x) rfLookupY [[[0]]] [0]
    ["x"] ["x"] ["y"] [(0, 10)] none "L-BFGS-B" none none [] [[7]] lbfgsRes
    (by decide) hrun⟩

theorem initPopulation_length (st : EvoStreams) (bounds : List (ℚ × ℚ)) (P n : ℕ) :
    (initPopulation st bounds P n).length = P := by
  simp [initPopulation]

theorem argmaxFrom_isSome (l : List FVal) (h : l ≠ []) (i : ℕ) :
    ∃ jv, argmaxFrom i l = some jv := by
  cases l with
  | nil => exact absurd rfl h
  | cons v rest =>
    unfold argmaxFrom
    rcases h2 : argmaxFrom (i + 1) rest with _ | jw <;> dsimp only
    · exact ⟨(i, v), rfl⟩
    · by_cases hc : v < jw.2
      · rw [if_pos hc]; exact ⟨jw, rfl⟩
      · rw [if_neg hc]; exact ⟨(i, v), rfl⟩

theorem selectLoop_ok (st : EvoStreams) (P : ℕ) (scores : List FVal)
    (pop : List (List ℚ)) (hP : 2 ≤ P) :
    ∀ (k ic : ℕ), ∃ l ic', selectLoop st P scores pop k ic = .ok (l, ic')
      ∧ l.length = k := by
  intro k
  induction k with
  | zero => intro ic; exact ⟨[], ic, rfl, rfl⟩
  | succ k ih =>
    intro ic
    obtain ⟨l, ic', hsel, hlen⟩ := ih (ic + 2)
    unfold selectLoop
    rw [if_neg (show ¬ P < 2 by omega)]
    dsimp only
    rw [hsel]
    exact ⟨_, ic', rfl, by simp [hlen]⟩

theorem crossoverLoop_error_of_single (st : EvoStreams) (cr : ℚ) (x y : List ℚ)
    (rest : List (List ℚ)) (rc ic : ℕ) (hr : st.r rc < cr) :
    crossoverLoop st cr 1 (x :: y :: rest) rc ic = .error "ValueError: low >= high" := by
  unfold crossoverLoop
  rw [if_pos hr, if_neg (by norm_num)]

theorem genStep_crash (fit : List ℚ → FVal) (stats : List FVal → FVal × FVal)
    (st : EvoStreams) (mr : ℚ) (bounds : List (ℚ × ℚ)) (P g : ℕ) (s : EvoState)
    (hP : 2 ≤ P) (hpop : s.pop.length = P) (hr : st.r s.rc < 1) :
    genStep fit stats st 1 mr bounds P 1 g s = .error "ValueError: low >= high" := by
  simp only [genStep]
  have hne : s.pop.map fit ≠ [] := by
    intro hnil
    have := congrArg List.length hnil
    rw [List.length_map, hpop, List.length_nil] at this
    omega
  obtain ⟨jv, hjv⟩ := argmaxFrom_isSome (s.pop.map fit) hne 0
  rw [show argmaxIdx (s.pop.map fit) = some jv from hjv]
  dsimp only
  obtain ⟨l, ic', hsel, hlen⟩ := selectLoop_ok st P (s.pop.map fit) s.pop hP P s.ic
  rw [hsel]
  dsimp only
  rcases l with _ | ⟨x, l⟩
  · exfalso; simp at hlen; omega
  rcases l with _ | ⟨y, l⟩
  · exfalso; simp at hlen; omega
  rw [crossoverLoop_error_of_single st 1 x y l s.rc ic' hr]

theorem genLoop_error_first (step : ℕ → EvoState → Except String EvoState) (k g : ℕ)
    (s : EvoState) (msg : String) (h : step g s = .error msg) :
    genLoop step (k + 1) g s = .error msg := by
  unfold genLoop
  rw [h]

/-- C10: with a single policy lever (`n_params = 1`), a population of at
least two and `crossover_rate = 1`, `EvolutionaryOptimizer.optimize` raises
instead of returning: `np.random.random()` draws lie in `[0, 1)`, so every
adjacent pair fires a crossover, whose `np.random.randint(1, 1)` draws from
the empty integer range and raises `ValueError: low >= high` in the very
first generation, for every RNG stream. -/
theorem evo_single_lever_crossover_crash (forward : Forward) (rf : RewardFn)
    (baseFeatures : List (List (List ℚ))) (entityIds : List ℤ)
    (targetNames : List String) (bounds : List (ℚ × ℚ)) (mr : ℚ)
    (context : Option PredDict) (stats : List FVal → FVal × FVal) (st : EvoStreams)
    (indices : List ℕ) (P generations : ℕ)
    (hn : indices.length = 1) (hP : 2 ≤ P) (hg : 1 ≤ generations)
    (hr : ∀ k, 0 ≤ st.r k ∧ st.r k < 1) :
    EvolutionaryOptimizer.optimize forward rf baseFeatures entityIds indices targetNames
      bounds P generations mr 1 context stats st = .error "ValueError: low >= high" := by
  obtain ⟨k, rfl⟩ : ∃ k, generations = k + 1 := ⟨generations - 1, by omega⟩
  simp only [EvolutionaryOptimizer.optimize, hn]
  rw [genLoop_error_first _ k 0 _ _
    (genStep_crash _ _ _ _ _ _ _ _ hP (initPopulation_length st bounds P 1) ((hr 0).2))]

/-- Closed instance of `evo_single_lever_crossover_crash` discharging its
hypotheses: one lever, population 2, one generation, crossover rate 1. -/
theorem evo_single_lever_crossover_crash_witness :
    EvolutionaryOptimizer.optimize (fun x _ => x) rfZero [[[0]]] [0] [0] ["y"]
      [(0, 1)] 2 1 0 1 none (fun _ => (.fin 0, .fin 0)) zeroStreams
      = .error "ValueError: low >= high" :=
  evo_single_lever_crossover_crash (fun x _ => x) rfZero [[[0]]] [0] ["y"] [(0, 1)]
    0 none (fun _ => (.fin 0, .fin 0)) zeroStreams [0] 2 1 rfl (by norm_num)
    (by norm_num) (fun k => ⟨le_refl 0, by norm_num [zeroStreams]⟩)

theorem argmaxFrom_eq_none (l : List FVal) (i : ℕ) (h : argmaxFrom i l = none) :
    l = [] := by
  cases l with
  | nil => rfl
  | cons v rest =>
    exfalso
    unfold argmaxFrom at h
    rcases h2 : argmaxFrom (i + 1) rest with _ | jw <;> rw [h2] at h <;> dsimp only at h
    · cases h
    · split at h <;> cases h

theorem argmaxFrom_spec :
    ∀ (l : List FVal) (i : ℕ) (jv : ℕ × FVal), argmaxFrom i l = some jv →
      jv.2 ∈ l ∧ ∀ x ∈ l, x ≤ jv.2 := by
  intro l
  induction l with
  | nil => intro i jv h; cases h
  | cons v rest ih =>
    intro i jv h
    unfold argmaxFrom at h
    rcases h2 : argmaxFrom (i + 1) rest with _ | jw <;> rw [h2] at h <;> dsimp only at h
    · injection h with h
      have hnil := argmaxFrom_eq_none rest (i + 1) h2
      subst hnil
      rw [← h]
      exact ⟨List.mem_cons_self _ _, by
        intro x hx
        rcases List.mem_cons.mp hx with rfl | hx
        · exact le_refl _
        · exact absurd hx (List.not_mem_nil x)⟩
    · obtain ⟨hmem, hbound⟩ := ih (i + 1) jw h2
      by_cases hc : v < jw.2
      · rw [if_pos hc] at h
        injection h with h
        rw [← h]
        refine ⟨List.mem_cons_of_mem v hmem, ?_⟩
        intro x hx
        rcases List.mem_cons.mp hx with rfl | hx
        · exact le_of_lt hc
        · exact hbound x hx
      · rw [if_neg hc] at h
        injection h with h
        rw [← h]
        refine ⟨List.mem_cons_self _ _, ?_⟩
        intro x hx
        rcases List.mem_cons.mp hx with rfl | hx
        · exact le_refl _
        · exact le_trans (hbound x hx) (le_of_not_lt hc)

theorem elitism_ok (pop : List (List ℚ)) (bi : Option (List ℚ))
    (p4 : List (List ℚ)) (h : elitism pop bi = .ok p4) :
    ∃ b t, bi = some b ∧ p4 = b :: t := by
  unfold elitism at h
  rcases bi with _ | b
  · cases h
  rcases pop with _ | ⟨x, t⟩
  · cases h
  · injection h with h
    exact ⟨b, t, rfl, h.symm⟩

theorem genStep_inv (fit : List ℚ → FVal) (stats : List FVal → FVal × FVal)
    (st : EvoStreams) (cr mr : ℚ) (bounds : List (ℚ × ℚ)) (P n g : ℕ)
    (s s' : EvoState) (hinv : EvoInv s)
    (h : genStep fit stats st cr mr bounds P n g s = .ok s') : EvoInv s' := by
  obtain ⟨inv1, inv2, inv3, inv4, inv5⟩ := hinv
  simp only [genStep] at h
  split at h
  · cases h
  rename_i jv hjv
  split at h
  · cases h
  rename_i pop1 ic' hsel
  split at h
  · cases h
  rename_i pop2 rc' ic'' hcross
  split at h
  · cases h
  rename_i pop4 helit
  injection h with h
  subst h
  obtain ⟨hvmem, hvbound⟩ :=
    argmaxFrom_spec (s.pop.map fit) 0 jv (by exact hjv)
  obtain ⟨b, t, hbi, hpop4⟩ := elitism_ok _ _ _ helit
  have hb1 : bestFOf s.best
      ≤ bestFOf (if bestFOf s.best < jv.2
          then some (s.pop.getD jv.1 [], jv.2) else s.best) := by
    split
    · exact le_of_lt (by assumption)
    · exact le_refl _
  have hb2 : jv.2
      ≤ bestFOf (if bestFOf s.best < jv.2
          then some (s.pop.getD jv.1 [], jv.2) else s.best) := by
    split
    · exact le_refl _
    · exact le_of_not_lt (by assumption)
  unfold EvoInv
  dsimp only
  refine ⟨?_, ?_, ?_, ?_, ?_⟩
  · intro x hx
    rcases List.mem_append.mp hx with hx | hx
    · exact le_trans (inv1 x hx) hb1
    · exact le_trans (hvbound x hx) hb2
  · intro p hp
    split at hp
    · injection hp with hp
      rw [← hp]
      exact List.mem_append_right _ hvmem
    · exact List.mem_append_left _ (inv2 p hp)
  · rw [List.map_append]
    rw [List.chain'_append]
    refine ⟨inv3, List.chain'_singleton _, ?_⟩
    intro x hx y hy
    rcases List.mem_getLast?_eq_getLast hx with ⟨hne, rfl⟩
    have hxl : (s.hist.map GenLog.bestFitness).getLast hne ∈ s.hist.map GenLog.bestFitness :=
      List.getLast_mem hne
    obtain ⟨h0, h0mem, h0eq⟩ := List.mem_map.mp hxl
    rw [← h0eq]
    have hy' : bestFOf (if bestFOf s.best < jv.2
        then some (s.pop.getD jv.1 [], jv.2) else s.best) = y := by
      simpa using hy
    rw [← hy']
    exact le_trans (inv4 h0 h0mem) hb1
  · intro hh hmem
    rcases List.mem_append.mp hmem with hmem | hmem
    · exact le_trans (inv4 hh hmem) hb1
    · rcases List.mem_singleton.mp hmem with rfl
      exact le_refl _
  · intro e he
    rcases List.mem_append.mp he with he | he
    · exact inv5 e he
    · rcases List.mem_singleton.mp he with rfl
      rw [hbi, hpop4]
      rfl

theorem genLoop_inv (step : ℕ → EvoState → Except String EvoState)
    (hstep : ∀ g s s', EvoInv s → step g s = .ok s' → EvoInv s') :
    ∀ (k g : ℕ) (s s' : EvoState), EvoInv s → genLoop step k g s = .ok s' →
      EvoInv s' := by
  intro k
  induction k with
  | zero =>
    intro g s s' h hl
    unfold genLoop at hl
    injection hl with hl
    exact hl ▸ h
  | succ k ih =>
    intro g s s' h hl
    unfold genLoop at hl
    rcases h2 : step g s with _ | s1 <;> rw [h2] at hl <;> dsimp only at hl
    · cases hl
    · exact ih (g + 1) s1 s' (hstep g s s1 h h2) hl

/-- C8: whenever `EvolutionaryOptimizer.optimize` returns a result, the
per-generation `best_fitness` history is non-decreasing, the returned
`optimal_fitness` is the maximum fitness assigned to any individual
evaluated in any generation (it is one of the evaluated fitness values and
an upper bound of all of them), and at the end of every completed generation
population slot 0 holds the best-ever individual (elitism). -/
theorem evo_best_tracking (forward : Forward) (rf : RewardFn)
    (baseFeatures : List (List (List ℚ))) (entityIds : List ℤ)
    (policyFeatureIndices : List ℕ) (targetNames : List String)
    (bounds : List (ℚ × ℚ)) (P generations : ℕ) (mr cr : ℚ)
    (context : Option PredDict) (stats : List FVal → FVal × FVal)
    (st : EvoStreams) (res : EvoResult)
    (hok : EvolutionaryOptimizer.optimize forward rf baseFeatures entityIds
      policyFeatureIndices targetNames bounds P generations mr cr context stats st
      = .ok res) :
    (res.history.map GenLog.bestFitness).Chain' (· ≤ ·)
    ∧ res.optimalFitness ∈ res.evalLog
    ∧ (∀ x ∈ res.evalLog, x ≤ res.optimalFitness)
    ∧ (∀ e ∈ res.elitLog, e.2 = e.1) := by
  simp only [EvolutionaryOptimizer.optimize] at hok
  split at hok
  · cases hok
  rename_i sfin hloop
  split at hok
  · cases hok
  rename_i b hbest
  injection hok with hok
  subst hok
  have hinv : EvoInv sfin := by
    refine genLoop_inv _ ?_ generations 0 _ sfin ?_ hloop
    · intro g s1 s2 hi hs
      exact genStep_inv _ _ _ _ _ _ _ _ g s1 s2 hi hs
    · unfold EvoInv
      refine ⟨?_, ?_, ?_, ?_, ?_⟩
      · intro x hx
        exact absurd hx (List.not_mem_nil x)
      · intro p hp
        cases hp
      · simp
      · intro hh hmem
        exact absurd hmem (List.not_mem_nil hh)
      · intro e he
        exact absurd he (List.not_mem_nil e)
  obtain ⟨inv1, inv2, inv3, inv4, inv5⟩ := hinv
  refine ⟨inv3, ?_, ?_, inv5⟩
  · exact inv2 b hbest
  · intro x hx
    have := inv1 x hx
    rw [hbest] at this
    exact this

/-- Closed instance of `evo_best_tracking` discharging its hypothesis: a
one-generation, two-individual run (no targets, so every fitness is the
constant reward 0), whose history, evaluation log and elitism log are
checked concretely. -/
theorem evo_best_tracking_witness :
    EvolutionaryOptimizer.optimize (fun x _ => x) rfZero [[[0]]] [0] [0] []
        [(0, 1)] 2 1 0 0 none (fun _ => (.fin 0, .fin 0)) zeroStreams = .ok evoRes
    ∧ ((evoRes.history.map GenLog.bestFitness).Chain' (· ≤ ·)
       ∧ evoRes.optimalFitness ∈ evoRes.evalLog
       ∧ (∀ x ∈ evoRes.evalLog, x ≤ evoRes.optimalFitness)
       ∧ (∀ e ∈ evoRes.elitLog, e.2 = e.1)) := by
  have hpop : initPopulation zeroStreams [((0 : ℚ), (1 : ℚ))] 2 1 = [[0], [0]] := by
    norm_num [initPopulation, uniformIn, zeroStreams]
    decide
  have hrun : EvolutionaryOptimizer.optimize (fun x _ => x) rfZero [[[0]]] [0] [0] []
      [(0, 1)] 2 1 0 0 none (fun _ => (.fin 0, .fin 0)) zeroStreams = .ok evoRes := by
    simp only [EvolutionaryOptimizer.optimize, List.length_cons, List.length_nil, hpop]
    rfl
  exact ⟨hrun, evo_best_tracking (fun x _ => x) rfZero [[[0]]] [0] [0] [] [(0, 1)] 2 1
    0 0 none (fun _ => (.fin 0, .fin 0)) zeroStreams evoRes hrun⟩
